import Mathlib

/-!
Verification development for the financial-report transformation pipeline of the
xero-oqlis-integration repository (src/app/xero/datasets/).  The Python source is
shallowly embedded: pandas DataFrames become lists of row records, cells become an
inductive `Cell` type (null / numeric / string), and each cleaning stage of the
report transforms becomes a total Lean function translated line-by-line from the
source.  Strings are modelled as lists of characters (`Str`) so that stripping,
lower-casing and substring search can be reasoned about by induction.
-/

namespace XeroSpec

/-- Strings of the embedded programs, as character lists. -/
abbrev Str := List Char

/-- Whitespace recognised by Python `str.strip` / regex `\s` (ASCII range). -/
def isWs (c : Char) : Bool :=
  c = ' ' || c = '\t' || c = '\n' || c = '\r' || c = Char.ofNat 11 || c = Char.ofNat 12

/-- ASCII lower-casing of one character (Python `str.lower` restricted to ASCII). -/
def lowerC (c : Char) : Char := c.toLower

/-- Python `str.lower`. -/
def lower (s : Str) : Str := s.map lowerC

/-- Remove trailing whitespace (right half of Python `str.strip`). -/
def rstripL : Str → Str
  | [] => []
  | c :: cs =>
    match rstripL cs with
    | [] => if isWs c then [] else [c]
    | r => c :: r

/-- Python `str.strip`. -/
def trimL (s : Str) : Str := rstripL (s.dropWhile isWs)

/-- Consume the literal token `p` from the front of `cs`; return the rest. -/
def matchTok : Str → Str → Option Str
  | [], cs => some cs
  | _ :: _, [] => none
  | p :: ps, c :: cs => if c = p then matchTok ps cs else none

/-- Python `str.startswith p`. -/
def isPrefixB (p s : Str) : Bool := (matchTok p s).isSome

/-- Python `p in s` (substring containment). -/
def isSubB (p : Str) : Str → Bool
  | [] => isPrefixB p []
  | c :: cs => isPrefixB p (c :: cs) || isSubB p cs

/-- Decimal digit value of a character, if it is a digit (codepoints 48-57). -/
def digitVal? (c : Char) : Option Nat :=
  if 48 ≤ c.toNat && c.toNat ≤ 57 then some (c.toNat - 48) else none

def isDigitB (c : Char) : Bool := (digitVal? c).isSome

/-- Character of a decimal digit (only used for values below 10). -/
def dChar : Nat → Char
  | 0 => '0'
  | 1 => '1'
  | 2 => '2'
  | 3 => '3'
  | 4 => '4'
  | 5 => '5'
  | 6 => '6'
  | 7 => '7'
  | 8 => '8'
  | _ => '9'

/-- The canonical 4-digit rendering of a year below 10000. -/
def pad4 (y : Nat) : Str :=
  [dChar (y / 1000 % 10), dChar (y / 100 % 10), dChar (y / 10 % 10), dChar (y % 10)]

/-- Value of a digit string. -/
def digitsVal (ds : Str) : Nat := ds.foldl (fun a c => a * 10 + ((digitVal? c).getD 0)) 0

/-- A calendar date as produced by `pd.Timestamp(year=…, month=…, day=…)`. -/
structure Date where
  year : Nat
  month : Nat
  day : Nat
deriving DecidableEq, Repr

/-- One spreadsheet cell: missing (NaN), numeric, or text. -/
inductive Cell where
  | na : Cell
  | num (q : Rat) : Cell
  | str (s : Str) : Cell
deriving DecidableEq, Repr

def Cell.isNa : Cell → Bool
  | .na => true
  | _ => false

/-- Model of `pd.to_numeric(str, errors="coerce")` on a text cell: optional sign,
digits with at most one decimal point (as accepted by Python float parsing,
exponents not modelled), surrounded by optional whitespace. -/
def parseNumStr (s : Str) : Option Rat :=
  let t := trimL s
  let sgn : Rat × Str :=
    match t with
    | '-' :: r => (-1, r)
    | '+' :: r => (1, r)
    | r => (1, r)
  let ip := sgn.2.takeWhile isDigitB
  let r1 := sgn.2.dropWhile isDigitB
  match r1 with
  | '.' :: r2 =>
    let fp := r2.takeWhile isDigitB
    let r3 := r2.dropWhile isDigitB
    if r3 = [] ∧ (ip ≠ [] ∨ fp ≠ []) then
      some (sgn.1 * ((digitsVal ip : Rat) + (digitsVal fp : Rat) / ((10 : Rat) ^ fp.length)))
    else none
  | [] => if ip ≠ [] then some (sgn.1 * (digitsVal ip : Rat)) else none
  | _ => none

/-- Model of `pd.to_numeric(cell, errors="coerce")` preceded by `dropna`-style null checks:
null cells do not coerce, numeric cells coerce to themselves, text cells are parsed. -/
def toNumeric : Cell → Option Rat
  | .na => none
  | .num q => some q
  | .str s => parseNumStr s

/-- Model of `s.replace(",", ".")` from the vs-PY melt block. -/
def commaToDot (s : Str) : Str := s.map (fun c => if c = ',' then '.' else c)

/-- The vs-PY amount coercion: `astype(str).str.replace(",", ".")` then
`pd.to_numeric(…, errors="coerce")`.  A numeric cell round-trips through its
decimal rendering unchanged; a text cell is parsed after comma→dot replacement. -/
def toNumericVsPy : Cell → Option Rat
  | .na => none
  | .num q => some q
  | .str s => parseNumStr (commaToDot s)

/-- Pandas elementwise `cell != 0` (NaN != 0 and "…" != 0 are both True in Python). -/
def cellNeZero : Cell → Bool
  | .num q => decide (q ≠ 0)
  | _ => true

/-- English month abbreviations in the order Python `strptime %b` lists them. -/
def monthAbbrevs : List (Nat × Str) :=
  [(1, "jan".toList), (2, "feb".toList), (3, "mar".toList), (4, "apr".toList),
   (5, "may".toList), (6, "jun".toList), (7, "jul".toList), (8, "aug".toList),
   (9, "sep".toList), (10, "oct".toList), (11, "nov".toList), (12, "dec".toList)]

/-- Full English month names for Python `strptime %B`. -/
def monthFulls : List (Nat × Str) :=
  [(1, "january".toList), (2, "february".toList), (3, "march".toList), (4, "april".toList),
   (5, "may".toList), (6, "june".toList), (7, "july".toList), (8, "august".toList),
   (9, "september".toList), (10, "october".toList), (11, "november".toList),
   (12, "december".toList)]

/-- Match one month name from the table at the front of an (already lowered) string. -/
def matchMonth : List (Nat × Str) → Str → Option (Nat × Str)
  | [], _ => none
  | (m, name) :: rest, cs =>
    match matchTok name cs with
    | some r => some (m, r)
    | none => matchMonth rest cs

/-- Regex `\s+`: at least one whitespace character, consumed greedily. -/
def wsPlus (cs : Str) : Option Str :=
  match cs with
  | c :: rest => if isWs c then some (rest.dropWhile isWs) else none
  | [] => none

/-- Regex `\d{4}`: exactly four digits, returning their value. -/
def fourDigits (cs : Str) : Option (Nat × Str) :=
  match cs with
  | a :: b :: c :: d :: rest =>
    match digitVal? a, digitVal? b, digitVal? c, digitVal? d with
    | some x1, some x2, some x3, some x4 =>
      some (((x1 * 10 + x2) * 10 + x3) * 10 + x4, rest)
    | _, _, _, _ => none
  | _ => none

/-- Model of `datetime.strptime(t, "%b %Y")` or `"%B %Y"` depending on the table, followed by
`pd.Timestamp(year, month, 1)`.  strptime matches case-insensitively, requires the
whole string to be consumed, and `datetime` rejects year 0 with a `ValueError`. -/
def monthYearParse (table : List (Nat × Str)) (t : Str) : Option Date :=
  match matchMonth table (lower t) with
  | none => none
  | some (m, r1) =>
    match wsPlus r1 with
    | none => none
    | some r2 =>
      match fourDigits r2 with
      | some (y, []) => if 1 ≤ y then some ⟨y, m, 1⟩ else none
      | _ => none

/-- Model of `parse_period_to_date` (management_report.py:6, budget_summary.py:5,
balance_sheet.py:6): non-strings give None; otherwise strip, try `"%b %Y"`,
then `"%B %Y"`, first of the month on success, None on failure. -/
def parse_period_to_date : Cell → Option Date
  | .str s =>
    let t := trimL s
    match monthYearParse monthAbbrevs t with
    | some d => some d
    | none => monthYearParse monthFulls t
  | _ => none

/-- Python `strptime %d`: regex `3[01]|[12]\d|0[1-9]|[1-9]`, alternatives in order.
A second digit only binds when one of the two-digit alternatives applies. -/
def dayTok (cs : Str) : Option (Nat × Str) :=
  match cs with
  | [] => none
  | c :: rest =>
    match digitVal? c with
    | none => none
    | some v1 =>
      match rest with
      | c2 :: rest2 =>
        match digitVal? c2 with
        | some v2 =>
          if (v1 = 3 ∧ v2 ≤ 1) ∨ v1 = 1 ∨ v1 = 2 then some (v1 * 10 + v2, rest2)
          else if v1 = 0 then (if 1 ≤ v2 then some (v2, rest2) else none)
          else some (v1, c2 :: rest2)
        | none => if 1 ≤ v1 then some (v1, c2 :: rest2) else none
      | [] => if 1 ≤ v1 then some (v1, []) else none

def isAlphaB (c : Char) : Bool :=
  (65 ≤ c.toNat && c.toNat ≤ 90) || (97 ≤ c.toNat && c.toNat ≤ 122)

/-- Gregorian leap-year rule used by `datetime`. -/
def leapYear (y : Nat) : Bool := y % 4 = 0 && (y % 100 ≠ 0 || y % 400 = 0)

def daysInMonth (y m : Nat) : Nat :=
  if m = 2 then (if leapYear y then 29 else 28)
  else if m = 4 ∨ m = 6 ∨ m = 9 ∨ m = 11 then 30 else 31

/-- Tail of the banner-date regex, `\s+[A-Za-z]+\s+\d{4}`, returning the matched
characters.  All three pieces are greedy; no backtracking is possible because the
character classes are disjoint at each boundary. -/
def matchTail (cs : Str) : Option Str :=
  if cs.takeWhile isWs = [] then none
  else if ((cs.dropWhile isWs).takeWhile isAlphaB) = [] then none
  else if ((((cs.dropWhile isWs).dropWhile isAlphaB)).takeWhile isWs) = [] then none
  else
    match (((cs.dropWhile isWs).dropWhile isAlphaB)).dropWhile isWs with
    | a :: b :: c :: d :: _ =>
      if isDigitB a && isDigitB b && isDigitB c && isDigitB d then
        some (cs.takeWhile isWs ++ ((cs.dropWhile isWs).takeWhile isAlphaB ++
          (((((cs.dropWhile isWs).dropWhile isAlphaB)).takeWhile isWs) ++ [a, b, c, d])))
      else none
    | _ => none

/-- Shape of the tail `\s+[A-Za-z]+\s+\d{4}` of a banner-date candidate. -/
def tailShape (t : Str) : Prop :=
  ∃ w1 al w2 ds, t = w1 ++ (al ++ (w2 ++ ds)) ∧
    w1 ≠ [] ∧ (∀ c ∈ w1, isWs c = true) ∧
    al ≠ [] ∧ (∀ c ∈ al, isAlphaB c = true) ∧
    w2 ≠ [] ∧ (∀ c ∈ w2, isWs c = true) ∧
    ds.length = 4 ∧ (∀ c ∈ ds, isDigitB c = true)

/-- Shape of a banner-date candidate `\d{1,2}\s+[A-Za-z]+\s+\d{4}`. -/
def candShape (m : Str) : Prop :=
  ∃ dds t, m = dds ++ t ∧ dds ≠ [] ∧ dds.length ≤ 2 ∧
    (∀ c ∈ dds, isDigitB c = true) ∧ tailShape t

/-- Attempt of `\d{1,2}\s+[A-Za-z]+\s+\d{4}` anchored at the current position:
two digits of day are preferred, falling back to one (regex backtracking). -/
def matchCandAt (cs : Str) : Option Str :=
  match cs with
  | [] => none
  | c1 :: rest1 =>
    if isDigitB c1 then
      match rest1 with
      | c2 :: rest2 =>
        if isDigitB c2 then
          match matchTail rest2 with
          | some t => some (c1 :: c2 :: t)
          | none => (matchTail rest1).map (fun t => c1 :: t)
        else (matchTail rest1).map (fun t => c1 :: t)
      | [] => none
    else none

/-- Model of `re.search(r"(\d{1,2}\s+[A-Za-z]+\s+\d{4})", text)`: the leftmost match. -/
def findCand : Str → Option Str
  | [] => none
  | c :: cs =>
    match matchCandAt (c :: cs) with
    | some m => some m
    | none => findCand cs

/-- The banner-date pattern `\d{1,2}\s+[A-Za-z]+\s+\d{4}` matches at offset `i`
of `s`: some candidate-shaped substring starts exactly `i` characters in.  This
is the extrinsic (decomposition-based) notion of a regex match position. -/
def candMatchAt (s : Str) (i : Nat) : Prop :=
  ∃ m post, s.drop i = m ++ post ∧ candShape m

/-- Model of `datetime.strptime(t, "%d %B %Y")` (or `%b` with the abbreviation table):
day token, whitespace, month name (case-insensitive), whitespace, exactly four
digits of year, end of string, then `datetime` range validation. -/
def dmyParse1 (table : List (Nat × Str)) (t : Str) : Option Date :=
  match dayTok (lower t) with
  | none => none
  | some (d, r1) =>
    match wsPlus r1 with
    | none => none
    | some r2 =>
      match matchMonth table r2 with
      | none => none
      | some (m, r3) =>
        match wsPlus r3 with
        | none => none
        | some r4 =>
          match fourDigits r4 with
          | some (y, []) =>
            if 1 ≤ y ∧ 1 ≤ d ∧ d ≤ daysInMonth y m then some ⟨y, m, d⟩ else none
          | _ => none

/-- Model of `match.group(1).strip()` parsed with `"%d %B %Y"`, falling back to
`"%d %b %Y"` (management_report.py:41-51). -/
def dmyValue (m : Str) : Option Date :=
  match dmyParse1 monthFulls (trimL m) with
  | some d => some d
  | none => dmyParse1 monthAbbrevs (trimL m)

/-- Model of `parse_report_period` (management_report.py:25, budget_variance.py:7):
require the banner phrase (case-insensitive), search for the first date-like
substring, then parse it with `"%d %B %Y"` falling back to `"%d %b %Y"`. -/
def parse_report_period : Cell → Option Date
  | .str s =>
    if isSubB ("for the month ended".toList) (lower s)
        || isSubB ("for the period ended".toList) (lower s) then
      match findCand s with
      | none => none
      | some m => dmyValue m
    else none
  | _ => none

/-- Does `gross\s*profit` or `net\s*profit` match at the head of `cs`
(`cs` already lower-cased)? -/
def profitAt (cs : Str) : Bool :=
  (match matchTok ("gross".toList) cs with
   | some r => isPrefixB ("profit".toList) (r.dropWhile isWs)
   | none => false)
  || (match matchTok ("net".toList) cs with
      | some r => isPrefixB ("profit".toList) (r.dropWhile isWs)
      | none => false)

/-- Model of `Series.str.contains(r"gross\s*profit|net\s*profit", case=False)`. -/
def containsProfit : Str → Bool
  | [] => false
  | c :: cs => profitAt (c :: cs) || containsProfit cs

/-- The profit-row mask `Account.notna() & Account.str.contains(…, na=False)`. -/
def profitB : Option Str → Bool
  | some s => containsProfit (lower s)
  | none => false

/-- One row of the P&L/balance-sheet grids after the `Unnamed: 0 → Section` rename:
a Section label cell, an Account label cell, a Subsection (created later by the
pipeline) and the value-column cells in column order. -/
structure PRow where
  sec : Option Str
  sub : Option Str
  account : Option Str
  values : List Cell
deriving DecidableEq, Repr

def allNa (vs : List Cell) : Bool := vs.all Cell.isNa

/-- Model of `Section.astype(str).str.strip().replace(["", "nan", "NaN", "None"], np.nan)`. -/
def cleanSec : Option Str → Option Str
  | none => none
  | some s =>
    let t := trimL s
    if t = [] ∨ t = "nan".toList ∨ t = "NaN".toList ∨ t = "None".toList then none else some t

/-- Model of `col.str.lower().str.startswith("total", na=False)`. -/
def startsTotalOpt (a : Option Str) : Bool :=
  match a with
  | some s => isPrefixB ("total".toList) (lower s)
  | none => false

/-- Model of `df["Section"].ffill()`. -/
def ffillSec : List PRow → Option Str → List PRow
  | [], _ => []
  | r :: rs, cur =>
    match r.sec with
    | some s => { r with sec := some s } :: ffillSec rs (some s)
    | none => { r with sec := cur } :: ffillSec rs cur

/-- Stage: `dropna(how="all")` on the raw grid. -/
def s0 (rows : List PRow) : List PRow :=
  rows.filter (fun r => !(r.sec.isNone && r.account.isNone && allNa r.values))

/-- Stage: clean Section, drop `Total…` sections, forward-fill
(management_report.py:108-113). -/
def s1 (rows : List PRow) : List PRow :=
  ffillSec
    ((rows.map (fun r => { r with sec := cleanSec r.sec })).filter
      (fun r => !startsTotalOpt r.sec)) none

def isPureHeader (r : PRow) : Bool :=
  r.sec.isSome && r.sec != some [] && allNa r.values &&
    (r.account.isNone || trimL (r.account.getD []) = [])

/-- Stage: remove pure section headers (management_report.py:116-125). -/
def s2 (rows : List PRow) : List PRow := rows.filter (fun r => !isPureHeader r)

def isSubHeader (r : PRow) : Bool :=
  r.sec.isSome && r.account.isSome && r.account != some [] && allNa r.values

/-- Seed subsection headers and forward-fill the Subsection within each Section
group (`groupby("Section")…ffill()` groups by value, so the carried subsection is
looked up per section name; rows with a null Section are left null by pandas). -/
def s3go : List PRow → List (Str × Str) → List PRow
  | [], _ => []
  | r :: rs, st =>
    match r.sec, r.account, isSubHeader r with
    | some s, some a, true => { r with sub := some a } :: s3go rs ((s, a) :: st)
    | some s, _, _ => { r with sub := st.lookup s } :: s3go rs st
    | none, _, _ => { r with sub := none } :: s3go rs st

/-- Stage: create Subsection (management_report.py:128-140): reset the column,
seed/fill per section group, then default missing subsections to the Section. -/
def s3 (rows : List PRow) : List PRow :=
  (s3go (rows.map (fun r => { r with sub := none })) []).map
    (fun r => if r.sub = none then { r with sub := r.sec } else r)

/-- Stage: Gross/Net Profit rows (management_report.py:143-154): either dropped or
re-labelled so that Section and Subsection both become the row's Account. -/
def s4 (dropProfit : Bool) (rows : List PRow) : List PRow :=
  if dropProfit then rows.filter (fun r => !profitB r.account)
  else rows.map (fun r =>
    if profitB r.account then { r with sec := r.account, sub := r.account } else r)

def isLabelOnly (r : PRow) : Bool :=
  r.sec.isSome && r.sub.isSome && r.account.isSome && allNa r.values

/-- Stage: remove label-only rows, only when value columns exist
(management_report.py:157-167). -/
def s5 (hasValueCols : Bool) (rows : List PRow) : List PRow :=
  if hasValueCols then rows.filter (fun r => !isLabelOnly r) else rows

/-- Model of `Account.astype(str).str.strip().replace("nan", np.nan)`. -/
def cleanAcct : Option Str → Option Str
  | none => none
  | some s => let t := trimL s; if t = "nan".toList then none else some t

/-- Stage: clean Account (management_report.py:170-171). -/
def s6 (rows : List PRow) : List PRow :=
  rows.map (fun r => { r with account := cleanAcct r.account })

/-- Stage: drop rows whose Account starts with "total" (management_report.py:174). -/
def s7 (rows : List PRow) : List PRow := rows.filter (fun r => !startsTotalOpt r.account)

/-- The wide-format result shared by `transform_profit_and_loss`,
`transform_profit_and_loss_vs_py` and `transform_balance_sheet`
(their cleaning stages are line-for-line identical). -/
def transformPLWide (dropProfit : Bool) (cols : List Str) (rows : List PRow) : List PRow :=
  s7 (s6 (s5 (!cols.isEmpty) (s4 dropProfit (s3 (s2 (s1 (s0 rows)))))))

/-- A long-format fact produced by the melt blocks. -/
structure FactRow where
  sec : Option Str
  sub : Option Str
  account : Option Str
  period : Str
  periodDate : Option Date
  amount : Rat
deriving DecidableEq, Repr

def cellAt (r : PRow) (j : Nat) : Cell := r.values.getD j Cell.na

/-- A (row, value-column) pair survives the plain melt when the cell is non-null
and coerces to a number. -/
def keepPlain (c : Cell) : Bool := !c.isNa && (toNumeric c).isSome

/-- Model of the melt block: `pd.melt` stacks column by column; each column contributes the rows whose
amount is non-null and numeric (management_report.py:377-393). -/
def meltPlainAux : List (Nat × Str) → List PRow → List FactRow
  | [], _ => []
  | (j, c) :: ps, rows =>
    rows.filterMap (fun r =>
      if (cellAt r j).isNa then none
      else
        match toNumeric (cellAt r j) with
        | some q => some ⟨r.sec, r.sub, r.account, c, parse_period_to_date (Cell.str c), q⟩
        | none => none)
    ++ meltPlainAux ps rows

def meltPlain (cols : List Str) (rows : List PRow) : List FactRow :=
  meltPlainAux cols.enum rows

/-- Model of `transform_profit_and_loss(…, melt_to_long=True)` from the wide grid on. -/
def transform_profit_and_loss (dropProfit : Bool) (cols : List Str) (rows : List PRow) :
    List FactRow :=
  meltPlain cols (transformPLWide dropProfit cols rows)

/-- Model of `transform_balance_sheet(…, melt_to_long=True)`; its melt block is identical
to the plain P&L one (balance_sheet.py:152-175). -/
def transform_balance_sheet (dropProfit : Bool) (cols : List Str) (rows : List PRow) :
    List FactRow :=
  meltPlain cols (transformPLWide dropProfit cols rows)

/-- The vs-PY keep condition: non-null, `!= 0` (pandas semantics), and numeric
after comma→dot replacement (management_report.py:206-211). -/
def keepVsPy (c : Cell) : Bool := !c.isNa && cellNeZero c && (toNumericVsPy c).isSome

def meltVsPyAux : List (Nat × Str) → List PRow → List FactRow
  | [], _ => []
  | (j, c) :: ps, rows =>
    rows.filterMap (fun r =>
      if (cellAt r j).isNa || !cellNeZero (cellAt r j) then none
      else
        match toNumericVsPy (cellAt r j) with
        | some q => some ⟨r.sec, r.sub, r.account, c, parse_period_to_date (Cell.str c), q⟩
        | none => none)
    ++ meltVsPyAux ps rows

/-- The facts kept by the vs-PY melt before the `year` column is added. -/
def vsPyFacts (cols : List Str) (rows : List PRow) : List FactRow :=
  meltVsPyAux cols.enum rows

/-- vs-PY melt block (management_report.py:187-229).  It raises when there are no
value columns, and `df_long["period_date"].dt.year` (line 217) raises
`AttributeError: Can only use .dt accessor with datetimelike values` when the
period_date column has object dtype — which pandas infers whenever every
`parse_period_to_date` returned None (a Series of pure None stays object; one
Timestamp is enough to get datetime64 with NaT), and which is also the dtype of
the empty column (`Series.apply` on an empty object column keeps object dtype
via `apply_empty_result`), so the all-None guard covers the empty melt too. -/
def meltVsPy (cols : List Str) (rows : List PRow) : Except Str (List FactRow) :=
  if cols.isEmpty then
    .error ("No value columns found to melt (e.g. Dec 2025, Dec 2024...)".toList)
  else
    let facts := vsPyFacts cols rows
    if facts.all (fun f => f.periodDate.isNone) then
      .error ("Can only use .dt accessor with datetimelike values".toList)
    else .ok facts

/-- Model of `transform_profit_and_loss_vs_py(…, melt_to_long=True)` from the wide grid on. -/
def transform_profit_and_loss_vs_py (dropProfit : Bool) (cols : List Str) (rows : List PRow) :
    Except Str (List FactRow) :=
  meltVsPy cols (transformPLWide dropProfit cols rows)

/-- One raw row of the Budget Variance grid: the detected account column plus the
metric columns (Actual, Budget, Variance, …). -/
structure BVRow where
  account : Option Str
  values : List Cell
deriving DecidableEq, Repr

structure BVOut where
  sec : Option Str
  account : Option Str
  values : List Cell
deriving DecidableEq, Repr

/-- Model of `account.astype(str).str.strip().replace("", np.nan)` (budget_variance.py:111):
only the empty string becomes NaN; a NaN account becomes the literal text "nan". -/
def cleanAcctBV : Option Str → Option Str
  | none => some ("nan".toList)
  | some s => let t := trimL s; if t = [] then none else some t

def bvIsHeader (r : BVRow) : Bool :=
  r.account.isSome && r.account != some [] && allNa r.values

/-- Model of `np.where(is_section_header, account, nan)` + `ffill()` + drop of the header
rows (budget_variance.py:115-125). -/
def bvGo : List BVRow → Option Str → List BVOut
  | [], _ => []
  | r :: rs, cur =>
    if bvIsHeader r then bvGo rs r.account
    else ⟨cur, r.account, r.values⟩ :: bvGo rs cur

/-- Model of `Section.astype(str).str.strip().replace("nan", np.nan)` (budget_variance.py:131). -/
def cleanSecBV : Option Str → Option Str
  | none => none
  | some s => let t := trimL s; if t = "nan".toList then none else some t

/-- Model of `transform_budget_variance_report(…, melt_to_long=False)` from the raw grid on
(the constant Period banner column is omitted; it carries no per-row information). -/
def transform_budget_variance_wide (dropProfit : Bool) (rows : List BVRow) : List BVOut :=
  let base := (rows.filter (fun r => !(r.account.isNone && allNa r.values))).map
    (fun r => { r with account := cleanAcctBV r.account })
  let noTotals := base.filter (fun r => !startsTotalOpt r.account)
  let grouped := bvGo noTotals none
  let profited :=
    if dropProfit then grouped
    else grouped.map (fun r => if profitB r.account then { r with sec := r.account } else r)
  profited.map (fun r => { r with sec := cleanSecBV r.sec })

structure BVFact where
  sec : Option Str
  account : Option Str
  metric : Str
  value : Rat
deriving DecidableEq, Repr

/-- Model of the metric cleanup `.str.replace(r"\s+", " ", regex=True)`. -/
def collapseWs : Str → Str
  | [] => []
  | [c] => if isWs c then [' '] else [c]
  | c :: c2 :: cs =>
    if isWs c && isWs c2 then collapseWs (c2 :: cs)
    else (if isWs c then ' ' else c) :: collapseWs (c2 :: cs)

def bvValAt (r : BVOut) (j : Nat) : Cell := r.values.getD j Cell.na

def meltBVAux : List (Nat × Str) → List BVOut → List BVFact
  | [], _ => []
  | (j, c) :: ps, rows =>
    rows.filterMap (fun r =>
      if (bvValAt r j).isNa then none
      else
        match toNumeric (bvValAt r j) with
        | some q => some ⟨r.sec, r.account, collapseWs (trimL c), q⟩
        | none => none)
    ++ meltBVAux ps rows

/-- Model of `transform_budget_variance_report(…, melt_to_long=True)` from the raw grid on. -/
def transform_budget_variance_long (dropProfit : Bool) (cols : List Str) (rows : List BVRow) :
    List BVFact :=
  meltBVAux cols.enum (transform_budget_variance_wide dropProfit rows)

/-- One raw row of the Budget Summary sheet: the Account cell and the period cells. -/
structure BSRow where
  account : Option Str
  values : List Cell
deriving DecidableEq, Repr

/-- One processed record of the Budget Summary row scan. -/
structure BSRec where
  account : Str
  sec : Str
  values : List Cell
deriving DecidableEq, Repr

/-- The row-by-row scan of `transform_budget_summary` (budget_summary.py:63-93):
skip null accounts; all-null-value rows become the carried section; rows whose
account starts with "total " (case-insensitive) are skipped and reset the carried
section; data rows take the carried section when it is truthy (non-None and
non-empty) and their own account otherwise; an exact "Gross Profit"/"Net Profit"
account resets the carried section after the record is appended. -/
def bscan : List BSRow → Option Str → List BSRec
  | [], _ => []
  | r :: rs, cur =>
    match r.account with
    | none => bscan rs cur
    | some a0 =>
      let a := trimL a0
      if allNa r.values then bscan rs (some a)
      else if isPrefixB ("total ".toList) (lower a) then bscan rs none
      else
        let s :=
          match cur with
          | some cs => if cs = [] then a else cs
          | none => a
        ⟨a, s, r.values⟩ ::
          bscan rs (if a = "Gross Profit".toList ∨ a = "Net Profit".toList then none else cur)

structure BSFact where
  sec : Str
  account : Str
  periodDate : Option Date
  amount : Rat
deriving DecidableEq, Repr

def bsRecAt (r : BSRec) (j : Nat) : Cell := r.values.getD j Cell.na

def bsMeltAux : List (Nat × Str) → List BSRec → List (BSRec × Str × Rat)
  | [], _ => []
  | (j, c) :: ps, recs =>
    recs.filterMap (fun r =>
      if (bsRecAt r j).isNa then none
      else
        match toNumeric (bsRecAt r j) with
        | some q => some (r, c, q)
        | none => none)
    ++ bsMeltAux ps recs

/-- Model of `account.str.lower().str.strip().isin(["net profit", "gross profit"])`. -/
def isProfitName (a : Str) : Bool :=
  lower (trimL a) = "net profit".toList || lower (trimL a) = "gross profit".toList

/-- The long-format block of `transform_budget_summary` (budget_summary.py:101-135):
melt, drop null amounts, coerce, drop non-numeric, optionally drop exact
profit-name rows, then parse each period label. -/
def bsLong (dropProfit : Bool) (cols : List Str) (recs : List BSRec) : List BSFact :=
  let pairs := bsMeltAux cols.enum recs
  let kept := if dropProfit then pairs.filter (fun p => !isProfitName p.1.account) else pairs
  kept.map (fun p => ⟨p.1.sec, p.1.account, parse_period_to_date (Cell.str p.2.1), p.2.2⟩)

/-- Model of `transform_budget_summary(…, melt_to_long=True)` from the raw grid on; it
raises `ValueError` when the scan keeps no rows (budget_summary.py:95-96). -/
def transform_budget_summary (dropProfit : Bool) (cols : List Str) (rows : List BSRow) :
    Except Str (List BSFact) :=
  let recs := bscan rows none
  if recs.isEmpty then .error ("No valid data rows found after filtering.".toList)
  else .ok (bsLong dropProfit cols recs)

/-- The dictionary returned by `process_management_report`. -/
structure ReportBundle where
  profit_loss_vs_py : Option (List PRow)
  profit_loss : Option (List PRow)
  balance_sheet : Option (List PRow)
  budget_variance : Option (List BVOut)
deriving DecidableEq

/-- One `try/except Exception` block of the orchestrator: a raised exception makes
the per-report variable `None`; the message is only printed, never stored. -/
def tryReport {α : Type} (r : Except Str α) : Option α :=
  match r with
  | .ok t => some t
  | .error _ => none

/-- Model of `process_management_report` (management_report.py:726-796): each report
sub-pipeline runs in sequence; its outcome (result or raised exception, as an
`Except`) is absorbed by its own `try/except`, and the bundle dictionary is
built once at the end with one entry per report. -/
def process_management_report (rvs rpl rbs : Except Str (List PRow))
    (rbv : Except Str (List BVOut)) : ReportBundle :=
  { profit_loss_vs_py := tryReport rvs
    profit_loss := tryReport rpl
    balance_sheet := tryReport rbs
    budget_variance := tryReport rbv }

/-- Spec-side count of §8: the number of (HierarchyRow, value-column) pairs of the
wide table whose cell satisfies `keep`. -/
def pairCountP (keep : Cell → Bool) : List (Nat × Str) → List PRow → Nat
  | [], _ => 0
  | (j, _) :: ps, rows => (rows.filter (fun r => keep (cellAt r j))).length + pairCountP keep ps rows

/-- Pairs whose cell is non-null and coerces to a number. -/
def numericPairCount (cols : List Str) (rows : List PRow) : Nat :=
  pairCountP keepPlain cols.enum rows

/-- Pairs surviving the extra vs-PY conditions (non-null, `!= 0`, numeric after
comma→dot). -/
def vsPyPairCount (cols : List Str) (rows : List PRow) : Nat :=
  pairCountP keepVsPy cols.enum rows

def pairCountBV : List (Nat × Str) → List BVOut → Nat
  | [], _ => 0
  | (j, _) :: ps, rows => (rows.filter (fun r => keepPlain (bvValAt r j))).length + pairCountBV ps rows

def numericPairCountBV (cols : List Str) (rows : List BVOut) : Nat := pairCountBV cols.enum rows

def pairCountBS : List (Nat × Str) → List BSRec → Nat
  | [], _ => 0
  | (j, _) :: ps, recs => (recs.filter (fun r => keepPlain (bsRecAt r j))).length + pairCountBS ps recs

def numericPairCountBS (cols : List Str) (recs : List BSRec) : Nat := pairCountBS cols.enum recs

/-- The (section, subsection, account) triple of a wide row. -/
def PRow.triple (r : PRow) : Option Str × Option Str × Option Str := (r.sec, r.sub, r.account)

/-- The (section, subsection, account) triple of a long-format fact. -/
def FactRow.triple (f : FactRow) : Option Str × Option Str × Option Str := (f.sec, f.sub, f.account)

/-- Claim C1, counterexample.  The claim states that for every melt_to_long
invocation — including `transform_profit_and_loss_vs_py` — the number of facts
equals the number of (row, value-column) pairs whose cell is non-null and
numeric.  The vs-PY melt additionally filters `amount != 0`
(management_report.py:206): a two-row table with one zero and one non-zero cell
has two non-null numeric pairs but produces only the non-zero fact; and when the
zero row is the only one, every pair is filtered out, the period_date column of
the empty frame keeps object dtype, and `.dt.year` (line 217) raises instead of
producing zero facts. -/
theorem claim_C1_counterexample :
    numericPairCount [("Jan 2025").toList]
      [⟨some ("Rev".toList), some ("Rev".toList), some ("A".toList), [Cell.num 0]⟩,
       ⟨some ("Rev".toList), some ("Rev".toList), some ("B".toList), [Cell.num 5]⟩] = 2 ∧
    meltVsPy [("Jan 2025").toList]
      [⟨some ("Rev".toList), some ("Rev".toList), some ("A".toList), [Cell.num 0]⟩,
       ⟨some ("Rev".toList), some ("Rev".toList), some ("B".toList), [Cell.num 5]⟩] =
      .ok [⟨some ("Rev".toList), some ("Rev".toList), some ("B".toList),
        "Jan 2025".toList, some ⟨2025, 1, 1⟩, 5⟩] ∧
    meltVsPy [("Jan 2025").toList]
      [⟨some ("Rev".toList), some ("Rev".toList), some ("A".toList), [Cell.num 0]⟩] =
      .error ("Can only use .dt accessor with datetimelike values".toList) :=
  ⟨by decide, rfl, rfl⟩

/-- Claim C2, counterexample.  A wide HierarchyRow whose only cell is a
non-numeric string reaches the Reshaper but yields no fact, so its
(section, subsection, account) triple is dropped from the long output, against
the claimed set equality. -/
theorem claim_C2_counterexample :
    ([⟨some ("Rev".toList), some ("Rev".toList), some ("A".toList),
        [Cell.str ("abc".toList)]⟩] : List PRow).map PRow.triple =
      [(some ("Rev".toList), some ("Rev".toList), some ("A".toList))] ∧
    meltPlain [("Jan 2025").toList]
      [⟨some ("Rev".toList), some ("Rev".toList), some ("A".toList),
        [Cell.str ("abc".toList)]⟩] = [] := by
  decide

/-- Claim C3, counterexample.  `transform_budget_summary` skips only labels
starting with `"total "` (with a trailing space, budget_summary.py:76), so the
label "Totals" — which starts with "total" case-insensitively — survives as an
output record and as a FactRow account, against the claimed exclusion. -/
theorem claim_C3_counterexample :
    isPrefixB ("total".toList) (lower ("Totals".toList)) = true ∧
    transform_budget_summary true [("Jan 2025").toList]
      [⟨some ("Totals".toList), [Cell.num 5]⟩] =
      .ok [⟨"Totals".toList, "Totals".toList, some ⟨2025, 1, 1⟩, 5⟩] :=
  ⟨by decide, rfl⟩

/-- Claim C4, counterexample.  `transform_budget_variance_report` has no
profit-row drop branch: with `drop_profit_rows=True` it does nothing to profit
rows (budget_variance.py:127 only handles the False case), so a "Gross Profit"
row is retained, against the claimed absence. -/
theorem claim_C4_counterexample :
    profitB (some ("Gross Profit".toList)) = true ∧
    transform_budget_variance_wide true
      [⟨some ("Gross Profit".toList), [Cell.num 1]⟩] =
      [⟨none, some ("Gross Profit".toList), [Cell.num 1]⟩] := by
  decide

/-- Claim C5, counterexample.  The orchestrator's bundle entry for a failed
report is plain `None`: two failures with different exception messages produce
identical bundles, so no bundle entry can be "a failure marker carrying a
human-readable message" (the message only goes to stdout,
management_report.py:751). -/
theorem claim_C5_counterexample :
    process_management_report (.error ("boom".toList)) (.ok []) (.ok []) (.ok []) =
      process_management_report (.error ("a different message".toList))
        (.ok []) (.ok []) (.ok []) ∧
    (process_management_report (.error ("boom".toList)) (.ok []) (.ok [])
        (.ok [])).profit_loss_vs_py = none := by
  decide

/-- Claim C6, counterexample.  The claim quantifies over every 4-digit year, but
"Mar 0000" parses under neither strptime attempt (`datetime` rejects year 0 with
a `ValueError`), so `parse_period_to_date` returns None instead of the claimed
first-of-month date. -/
theorem claim_C6_counterexample :
    parse_period_to_date (Cell.str ("Mar 0000".toList)) = none := by
  decide

/-- Claim C8, counterexample.  A data row that precedes every section header
survives the whole reconstruction with Section and Subsection both null: the
Section forward-fill has nothing to fill from, the group-by subsection fill
skips null sections, and no filter removes the row. -/
theorem claim_C8_counterexample :
    transformPLWide true [("Jan 2025").toList]
      [⟨none, none, some ("A".toList), [Cell.num 1]⟩] =
      [⟨none, none, some ("A".toList), [Cell.num 1]⟩] := by
  decide

/-- Claim C10, counterexample.  A row whose account starts with "total " but has
no values is consumed by the section-header branch (budget_summary.py:71-73)
before the total-row reset is reached: it sets the carried section to "Total
Foo" instead of resetting it, so the next data row "Cash" gets section
"Total Foo", not its own account as the claim states. -/
theorem claim_C10_counterexample :
    bscan [⟨some ("Total Foo".toList), [Cell.na]⟩,
           ⟨some ("Cash".toList), [Cell.num 5]⟩] none =
      [⟨"Cash".toList, "Total Foo".toList, [Cell.num 5]⟩] ∧
    ("Total Foo".toList : Str) ≠ ("Cash".toList : Str) := by
  decide

/-- Claim C9: the claim says unparsable period labels never cause a
melt_to_long=True transform to raise, "including transform_profit_and_loss_vs_py,
regardless of how many labels fail to parse".  The plain P&L transform indeed
retains such rows with a null period_date (first conjunct), but the vs-PY
transform adds `df_long["period_date"].dt.year` (management_report.py:217),
which raises `AttributeError` when every label failed to parse, because a column
of pure None keeps object dtype and has no `.dt` accessor.  The spec's intent
("per-label, non-fatal … the row is retained") is clear, so this is a code bug. -/
theorem claim_C9_theorem :
    transform_profit_and_loss true [("NotAPeriod").toList]
      [⟨some ("Rev".toList), none, some ("Sales".toList), [Cell.num 5]⟩] =
      [⟨some ("Rev".toList), some ("Rev".toList), some ("Sales".toList),
        "NotAPeriod".toList, none, 5⟩] ∧
    transform_profit_and_loss_vs_py true [("NotAPeriod").toList]
      [⟨some ("Rev".toList), none, some ("Sales".toList), [Cell.num 5]⟩] =
      .error ("Can only use .dt accessor with datetimelike values".toList) :=
  ⟨by decide, rfl⟩

/-- Claim C5, amended: the bundle call never fails (it is a total function of the
four sub-pipeline outcomes), each report key is written exactly once, a failed
sub-pipeline yields the bare marker `None` for its own key (the message is
printed, not stored), and a failure leaves every sibling entry untouched: each
entry holds `some t` exactly when its own sub-pipeline returned `t`. -/
theorem claim_C5_amended :
    (∀ (rvs rpl rbs : Except Str (List PRow)) (rbv : Except Str (List BVOut))
       (rvs2 rbs2 : Except Str (List PRow)) (rbv2 : Except Str (List BVOut)),
        (process_management_report rvs rpl rbs rbv).profit_loss =
          (process_management_report rvs2 rpl rbs2 rbv2).profit_loss) ∧
    (∀ (rvs rpl rbs : Except Str (List PRow)) (rbv : Except Str (List BVOut)),
        ((∀ t, (process_management_report rvs rpl rbs rbv).profit_loss_vs_py = some t ↔
            rvs = .ok t) ∧
         ((process_management_report rvs rpl rbs rbv).profit_loss_vs_py = none ↔
            ∃ msg, rvs = .error msg)) ∧
        ((∀ t, (process_management_report rvs rpl rbs rbv).profit_loss = some t ↔
            rpl = .ok t) ∧
         ((process_management_report rvs rpl rbs rbv).profit_loss = none ↔
            ∃ msg, rpl = .error msg)) ∧
        ((∀ t, (process_management_report rvs rpl rbs rbv).balance_sheet = some t ↔
            rbs = .ok t) ∧
         ((process_management_report rvs rpl rbs rbv).balance_sheet = none ↔
            ∃ msg, rbs = .error msg)) ∧
        ((∀ t, (process_management_report rvs rpl rbs rbv).budget_variance = some t ↔
            rbv = .ok t) ∧
         ((process_management_report rvs rpl rbs rbv).budget_variance = none ↔
            ∃ msg, rbv = .error msg))) := by
  constructor
  · intro rvs rpl rbs rbv rvs2 rbs2 rbv2
    rfl
  · intro rvs rpl rbs rbv
    refine ⟨⟨?_, ?_⟩, ⟨?_, ?_⟩, ⟨?_, ?_⟩, ⟨?_, ?_⟩⟩ <;>
      first
      | (intro t
         cases rvs <;> cases rpl <;> cases rbs <;> cases rbv <;>
           simp [process_management_report, tryReport])
      | (cases rvs <;> cases rpl <;> cases rbs <;> cases rbv <;>
           simp [process_management_report, tryReport])

theorem filterMap_length_eq_filter_length {α β : Type} (f : α → Option β) (p : α → Bool)
    (h : ∀ a, (f a).isSome = p a) :
    ∀ l : List α, (l.filterMap f).length = (l.filter p).length := by
  intro l
  induction l with
  | nil => rfl
  | cons a t ih =>
    cases hfa : f a with
    | none =>
      have hp : p a = false := by rw [← h, hfa]; rfl
      simp [List.filterMap_cons, List.filter_cons, hfa, hp, ih]
    | some b =>
      have hp : p a = true := by rw [← h, hfa]; rfl
      simp [List.filterMap_cons, List.filter_cons, hfa, hp, ih]

theorem meltPlainCell_isSome (j : Nat) (c : Str) (r : PRow) :
    (if (cellAt r j).isNa then none
     else
       match toNumeric (cellAt r j) with
       | some q => some (⟨r.sec, r.sub, r.account, c, parse_period_to_date (Cell.str c), q⟩ : FactRow)
       | none => none).isSome = keepPlain (cellAt r j) := by
  cases hc : cellAt r j with
  | na => simp [keepPlain, Cell.isNa]
  | num q => simp [keepPlain, Cell.isNa, toNumeric]
  | str s => cases hp : parseNumStr s <;> simp [keepPlain, Cell.isNa, toNumeric, hp]

theorem meltPlainAux_length (ps : List (Nat × Str)) (rows : List PRow) :
    (meltPlainAux ps rows).length = pairCountP keepPlain ps rows := by
  induction ps with
  | nil => rfl
  | cons p t ih =>
    obtain ⟨j, c⟩ := p
    simp only [meltPlainAux, pairCountP, List.length_append, ih]
    rw [filterMap_length_eq_filter_length _ _ (meltPlainCell_isSome j c)]

theorem meltVsPyCell_isSome (j : Nat) (c : Str) (r : PRow) :
    (if (cellAt r j).isNa || !cellNeZero (cellAt r j) then none
     else
       match toNumericVsPy (cellAt r j) with
       | some q => some (⟨r.sec, r.sub, r.account, c, parse_period_to_date (Cell.str c), q⟩ : FactRow)
       | none => none).isSome = keepVsPy (cellAt r j) := by
  cases hc : cellAt r j with
  | na => simp [keepVsPy, Cell.isNa]
  | num q =>
    by_cases hq : q = 0 <;> simp [keepVsPy, Cell.isNa, toNumericVsPy, cellNeZero, hq]
  | str s => cases hp : parseNumStr (commaToDot s) <;>
      simp [keepVsPy, Cell.isNa, toNumericVsPy, cellNeZero, hp]

theorem meltVsPyAux_length (ps : List (Nat × Str)) (rows : List PRow) :
    (meltVsPyAux ps rows).length = pairCountP keepVsPy ps rows := by
  induction ps with
  | nil => rfl
  | cons p t ih =>
    obtain ⟨j, c⟩ := p
    simp only [meltVsPyAux, pairCountP, List.length_append, ih]
    rw [filterMap_length_eq_filter_length _ _ (meltVsPyCell_isSome j c)]

theorem meltBVCell_isSome (j : Nat) (c : Str) (r : BVOut) :
    (if (bvValAt r j).isNa then none
     else
       match toNumeric (bvValAt r j) with
       | some q => some (⟨r.sec, r.account, collapseWs (trimL c), q⟩ : BVFact)
       | none => none).isSome = keepPlain (bvValAt r j) := by
  cases hc : bvValAt r j with
  | na => simp [keepPlain, Cell.isNa]
  | num q => simp [keepPlain, Cell.isNa, toNumeric]
  | str s => cases hp : parseNumStr s <;> simp [keepPlain, Cell.isNa, toNumeric, hp]

theorem meltBVAux_length (ps : List (Nat × Str)) (rows : List BVOut) :
    (meltBVAux ps rows).length = pairCountBV ps rows := by
  induction ps with
  | nil => rfl
  | cons p t ih =>
    obtain ⟨j, c⟩ := p
    simp only [meltBVAux, pairCountBV, List.length_append, ih]
    rw [filterMap_length_eq_filter_length _ _ (meltBVCell_isSome j c)]

theorem bsMeltCell_isSome (j : Nat) (c : Str) (r : BSRec) :
    (if (bsRecAt r j).isNa then none
     else
       match toNumeric (bsRecAt r j) with
       | some q => some ((r, c, q) : BSRec × Str × Rat)
       | none => none).isSome = keepPlain (bsRecAt r j) := by
  cases hc : bsRecAt r j with
  | na => simp [keepPlain, Cell.isNa]
  | num q => simp [keepPlain, Cell.isNa, toNumeric]
  | str s => cases hp : parseNumStr s <;> simp [keepPlain, Cell.isNa, toNumeric, hp]

theorem bsMeltAux_length (ps : List (Nat × Str)) (recs : List BSRec) :
    (bsMeltAux ps recs).length = pairCountBS ps recs := by
  induction ps with
  | nil => rfl
  | cons p t ih =>
    obtain ⟨j, c⟩ := p
    simp only [bsMeltAux, pairCountBS, List.length_append, ih]
    rw [filterMap_length_eq_filter_length _ _ (bsMeltCell_isSome j c)]

theorem mem_meltPlainAux {ps : List (Nat × Str)} {rows : List PRow} {f : FactRow} :
    f ∈ meltPlainAux ps rows ↔
      ∃ p, p ∈ ps ∧ ∃ r, r ∈ rows ∧ ∃ q, (cellAt r p.1).isNa = false ∧
        toNumeric (cellAt r p.1) = some q ∧
        f = ⟨r.sec, r.sub, r.account, p.2, parse_period_to_date (Cell.str p.2), q⟩ := by
  induction ps with
  | nil => simp [meltPlainAux]
  | cons p t ih =>
    obtain ⟨j, c⟩ := p
    simp only [meltPlainAux, List.mem_append, ih, List.mem_filterMap]
    constructor
    · rintro (⟨r, hr, hfr⟩ | ⟨p', hp', rest⟩)
      · refine ⟨(j, c), List.mem_cons_self _ _, r, hr, ?_⟩
        split at hfr
        · exact absurd hfr (by simp)
        · rename_i hna
          split at hfr
          · rename_i q hq
            exact ⟨q, by simpa using hna, hq, by injection hfr with h; exact h.symm⟩
          · exact absurd hfr (by simp)
      · exact ⟨p', List.mem_cons_of_mem _ hp', rest⟩
    · rintro ⟨p', hp', r, hr, q, hna, hco, hf⟩
      rcases List.mem_cons.mp hp' with h | h
      · subst h
        left
        refine ⟨r, hr, ?_⟩
        simp only at hna hco hf
        rw [hna, hco]
        simpa using hf.symm
      · right
        exact ⟨p', h, r, hr, q, hna, hco, hf⟩

theorem mem_meltBVAux {ps : List (Nat × Str)} {rows : List BVOut} {f : BVFact} :
    f ∈ meltBVAux ps rows ↔
      ∃ p, p ∈ ps ∧ ∃ r, r ∈ rows ∧ ∃ q, (bvValAt r p.1).isNa = false ∧
        toNumeric (bvValAt r p.1) = some q ∧
        f = ⟨r.sec, r.account, collapseWs (trimL p.2), q⟩ := by
  induction ps with
  | nil => simp [meltBVAux]
  | cons p t ih =>
    obtain ⟨j, c⟩ := p
    simp only [meltBVAux, List.mem_append, ih, List.mem_filterMap]
    constructor
    · rintro (⟨r, hr, hfr⟩ | ⟨p', hp', rest⟩)
      · refine ⟨(j, c), List.mem_cons_self _ _, r, hr, ?_⟩
        split at hfr
        · exact absurd hfr (by simp)
        · rename_i hna
          split at hfr
          · rename_i q hq
            exact ⟨q, by simpa using hna, hq, by injection hfr with h; exact h.symm⟩
          · exact absurd hfr (by simp)
      · exact ⟨p', List.mem_cons_of_mem _ hp', rest⟩
    · rintro ⟨p', hp', r, hr, q, hna, hco, hf⟩
      rcases List.mem_cons.mp hp' with h | h
      · subst h
        left
        refine ⟨r, hr, ?_⟩
        simp only at hna hco hf
        rw [hna, hco]
        simpa using hf.symm
      · right
        exact ⟨p', h, r, hr, q, hna, hco, hf⟩

theorem mem_bsMeltAux {ps : List (Nat × Str)} {recs : List BSRec} {x : BSRec × Str × Rat} :
    x ∈ bsMeltAux ps recs ↔
      ∃ p, p ∈ ps ∧ ∃ r, r ∈ recs ∧ ∃ q, (bsRecAt r p.1).isNa = false ∧
        toNumeric (bsRecAt r p.1) = some q ∧ x = (r, p.2, q) := by
  induction ps with
  | nil => simp [bsMeltAux]
  | cons p t ih =>
    obtain ⟨j, c⟩ := p
    simp only [bsMeltAux, List.mem_append, ih, List.mem_filterMap]
    constructor
    · rintro (⟨r, hr, hfr⟩ | ⟨p', hp', rest⟩)
      · refine ⟨(j, c), List.mem_cons_self _ _, r, hr, ?_⟩
        split at hfr
        · exact absurd hfr (by simp)
        · rename_i hna
          split at hfr
          · rename_i q hq
            exact ⟨q, by simpa using hna, hq, by injection hfr with h; exact h.symm⟩
          · exact absurd hfr (by simp)
      · exact ⟨p', List.mem_cons_of_mem _ hp', rest⟩
    · rintro ⟨p', hp', r, hr, q, hna, hco, hf⟩
      rcases List.mem_cons.mp hp' with h | h
      · subst h
        left
        refine ⟨r, hr, ?_⟩
        simp only at hna hco hf
        rw [hna, hco]
        simpa using hf.symm
      · right
        exact ⟨p', h, r, hr, q, hna, hco, hf⟩

/-- Claim C1, amended: for the plain P&L, balance-sheet, budget-variance and
budget-summary melts the number of facts equals the number of
(HierarchyRow, value-column) pairs whose cell is non-null and numeric, and each
fact's amount is the coerced value of its originating cell; the vs-PY melt
instead produces, whenever it returns at all, one fact per pair that is
non-null, **non-zero** (pandas `!= 0`) and numeric after comma→dot replacement
(when every kept pair's period label fails to parse — in particular when no
pair is kept — it raises instead of returning). -/
theorem claim_C1_amended :
    (∀ (cols : List Str) (rows : List PRow),
        (meltPlain cols rows).length = numericPairCount cols rows) ∧
    (∀ (cols : List Str) (rows : List PRow) (facts : List FactRow),
        meltVsPy cols rows = .ok facts → facts.length = vsPyPairCount cols rows) ∧
    (∀ (cols : List Str) (rows : List BVOut),
        (meltBVAux cols.enum rows).length = numericPairCountBV cols rows) ∧
    (∀ (cols : List Str) (recs : List BSRec),
        (bsMeltAux cols.enum recs).length = numericPairCountBS cols recs) ∧
    (∀ (cols : List Str) (rows : List PRow) (f : FactRow), f ∈ meltPlain cols rows →
        ∃ r, r ∈ rows ∧ ∃ p, p ∈ cols.enum ∧ f.period = p.2 ∧
          (cellAt r p.1).isNa = false ∧ toNumeric (cellAt r p.1) = some f.amount) := by
  refine ⟨fun cols rows => meltPlainAux_length _ _, ?_,
          fun cols rows => meltBVAux_length _ _,
          fun cols recs => bsMeltAux_length _ _, ?_⟩
  · intro cols rows facts h
    simp only [meltVsPy] at h
    split at h
    · exact Except.noConfusion h
    · split at h
      · exact Except.noConfusion h
      · injection h with h
        subst h
        exact meltVsPyAux_length _ _
  · intro cols rows f hf
    obtain ⟨p, hp, r, hr, q, hna, hco, hfe⟩ := mem_meltPlainAux.mp hf
    exact ⟨r, hr, p, hp, by rw [hfe], hna, by rw [hfe]; exact hco⟩

/-- Claim C1, witness for the amended theorem's vs-PY count clause and
membership clause at concrete inputs. -/
theorem claim_C1_witness :
    ([(⟨some ("Rev".toList), some ("Rev".toList), some ("A".toList),
        "Jan 2025".toList, some ⟨2025, 1, 1⟩, 7⟩ : FactRow)] : List FactRow).length =
      vsPyPairCount [("Jan 2025").toList]
        [⟨some ("Rev".toList), some ("Rev".toList), some ("A".toList), [Cell.num 7]⟩] ∧
    ∃ r, r ∈ ([⟨some ("Rev".toList), some ("Rev".toList), some ("A".toList),
        [Cell.num 7]⟩] : List PRow) ∧
      ∃ p, p ∈ ([("Jan 2025").toList] : List Str).enum ∧
        (⟨some ("Rev".toList), some ("Rev".toList), some ("A".toList),
          "Jan 2025".toList, some ⟨2025, 1, 1⟩, 7⟩ : FactRow).period = p.2 ∧
        (cellAt r p.1).isNa = false ∧ toNumeric (cellAt r p.1) =
          some (⟨some ("Rev".toList), some ("Rev".toList), some ("A".toList),
            "Jan 2025".toList, some ⟨2025, 1, 1⟩, 7⟩ : FactRow).amount :=
  ⟨claim_C1_amended.2.1 [("Jan 2025").toList]
    [⟨some ("Rev".toList), some ("Rev".toList), some ("A".toList), [Cell.num 7]⟩]
    [⟨some ("Rev".toList), some ("Rev".toList), some ("A".toList),
      "Jan 2025".toList, some ⟨2025, 1, 1⟩, 7⟩] rfl,
   claim_C1_amended.2.2.2.2 [("Jan 2025").toList]
    [⟨some ("Rev".toList), some ("Rev".toList), some ("A".toList), [Cell.num 7]⟩]
    ⟨some ("Rev".toList), some ("Rev".toList), some ("A".toList),
      "Jan 2025".toList, some ⟨2025, 1, 1⟩, 7⟩ (by decide)⟩

/-- Claim C2, amended: reshaping introduces no new (section, subsection, account)
triples — every fact's triple comes from a wide input row — and every wide row
owning at least one non-null numeric cell contributes its triple to the output;
but a wide row all of whose cells are null or non-numeric is dropped entirely,
so the two triple sets are equal only up to such rows. -/
theorem claim_C2_amended :
    (∀ (cols : List Str) (rows : List PRow) (f : FactRow), f ∈ meltPlain cols rows →
        ∃ r, r ∈ rows ∧ FactRow.triple f = PRow.triple r) ∧
    (∀ (cols : List Str) (rows : List PRow) (r : PRow), r ∈ rows →
        (∃ p, p ∈ cols.enum ∧ keepPlain (cellAt r p.1)) →
        ∃ f, f ∈ meltPlain cols rows ∧ FactRow.triple f = PRow.triple r) := by
  constructor
  · intro cols rows f hf
    obtain ⟨p, hp, r, hr, q, hna, hco, hfe⟩ := mem_meltPlainAux.mp hf
    exact ⟨r, hr, by rw [hfe]; rfl⟩
  · intro cols rows r hr ⟨p, hp, hkeep⟩
    have hna : (cellAt r p.1).isNa = false := by
      cases hk : (cellAt r p.1).isNa
      · rfl
      · rw [keepPlain, hk] at hkeep; simp at hkeep
    have hsome : (toNumeric (cellAt r p.1)).isSome := by
      rw [keepPlain, hna] at hkeep; simpa using hkeep
    obtain ⟨q, hq⟩ := Option.isSome_iff_exists.mp hsome
    exact ⟨⟨r.sec, r.sub, r.account, p.2, parse_period_to_date (Cell.str p.2), q⟩,
      mem_meltPlainAux.mpr ⟨p, hp, r, hr, q, hna, hq, rfl⟩, rfl⟩

/-- Claim C2, witness for the amended theorem. -/
theorem claim_C2_witness :
    ∃ f, f ∈ meltPlain [("Jan 2025").toList]
        [⟨some ("Rev".toList), some ("Rev".toList), some ("A".toList), [Cell.num 7]⟩] ∧
      FactRow.triple f = PRow.triple
        ⟨some ("Rev".toList), some ("Rev".toList), some ("A".toList), [Cell.num 7]⟩ :=
  claim_C2_amended.2 [("Jan 2025").toList]
    [⟨some ("Rev".toList), some ("Rev".toList), some ("A".toList), [Cell.num 7]⟩]
    ⟨some ("Rev".toList), some ("Rev".toList), some ("A".toList), [Cell.num 7]⟩
    (by decide) ⟨(0, ("Jan 2025").toList), by decide, by decide⟩

theorem s3go_sec_none_sub_none :
    ∀ (l : List PRow) (st : List (Str × Str)) (r : PRow), r ∈ s3go l st →
      r.sec = none → r.sub = none := by
  intro l
  induction l with
  | nil => intro st r hr; simp [s3go] at hr
  | cons x xs ih =>
    intro st r hr hsec
    rw [s3go] at hr
    split at hr <;> rcases List.mem_cons.mp hr with h | h
    · subst h; simp only at hsec; simp_all
    · exact ih _ r h hsec
    · subst h; simp only at hsec; simp_all
    · exact ih _ r h hsec
    · subst h; rfl
    · exact ih _ r h hsec

theorem s3_sec_iff_sub (rows : List PRow) :
    ∀ r ∈ s3 rows, (r.sec = none ↔ r.sub = none) := by
  intro r hr
  rw [s3] at hr
  obtain ⟨r0, hr0, hmap⟩ := List.mem_map.mp hr
  by_cases hsub : r0.sub = none
  · rw [if_pos hsub] at hmap
    subst hmap
    simp
  · rw [if_neg hsub] at hmap
    subst hmap
    have := s3go_sec_none_sub_none _ _ r0 hr0
    constructor
    · intro h; exact absurd (this h) hsub
    · intro h; exact absurd h hsub

theorem s4_sec_iff_sub (dp : Bool) (rows : List PRow)
    (h : ∀ r ∈ rows, (r.sec = none ↔ r.sub = none)) :
    ∀ r ∈ s4 dp rows, (r.sec = none ↔ r.sub = none) := by
  intro r hr
  rw [s4] at hr
  cases dp with
  | true =>
    rw [if_pos rfl] at hr
    exact h r (List.mem_filter.mp hr).1
  | false =>
    rw [if_neg (by simp)] at hr
    obtain ⟨r0, hr0, hmap⟩ := List.mem_map.mp hr
    by_cases hp : profitB r0.account = true
    · rw [if_pos hp] at hmap
      subst hmap
      cases hacc : r0.account <;> simp
    · rw [if_neg hp] at hmap
      subst hmap
      exact h r0 hr0

/-- Claim C8, amended: after reconstruction, Section is null exactly when
Subsection is null — the two are never mixed — and both-null happens precisely
for the retained data rows that precede the first section header (which the
counterexample shows are kept, against the original claim). -/
theorem claim_C8_amended :
    ∀ (dp : Bool) (cols : List Str) (rows : List PRow),
      ∀ r ∈ transformPLWide dp cols rows, (r.sec = none ↔ r.sub = none) := by
  intro dp cols rows r hr
  rw [transformPLWide, s7] at hr
  have hr6 := (List.mem_filter.mp hr).1
  rw [s6] at hr6
  obtain ⟨r5, hr5, hmap⟩ := List.mem_map.mp hr6
  have h5 : r5 ∈ s4 dp (s3 (s2 (s1 (s0 rows)))) := by
    rw [s5] at hr5
    split at hr5
    · exact (List.mem_filter.mp hr5).1
    · exact hr5
  have hiff := s4_sec_iff_sub dp _ (s3_sec_iff_sub _) r5 h5
  subst hmap
  exact hiff

/-- Claim C8, witness for the amended theorem, on a grid whose first row is an
orphan data row (both null) and whose remainder is a normal section: the orphan
survives into the output with section and subsection both null. -/
theorem claim_C8_witness :
    (⟨none, none, some ("A".toList), [Cell.num 1]⟩ : PRow) ∈
      transformPLWide true [("Jan 2025").toList]
        [⟨none, none, some ("A".toList), [Cell.num 1]⟩,
         ⟨some ("Rev".toList), none, none, [Cell.na]⟩,
         ⟨none, none, some ("Sales".toList), [Cell.num 2]⟩] ∧
    ((⟨none, none, some ("A".toList), [Cell.num 1]⟩ : PRow).sec = none ↔
     (⟨none, none, some ("A".toList), [Cell.num 1]⟩ : PRow).sub = none) :=
  ⟨by decide,
   claim_C8_amended true [("Jan 2025").toList]
     [⟨none, none, some ("A".toList), [Cell.num 1]⟩,
      ⟨some ("Rev".toList), none, none, [Cell.na]⟩,
      ⟨none, none, some ("Sales".toList), [Cell.num 2]⟩]
     ⟨none, none, some ("A".toList), [Cell.num 1]⟩ (by decide)⟩

theorem mem_meltVsPyAux {ps : List (Nat × Str)} {rows : List PRow} {f : FactRow} :
    f ∈ meltVsPyAux ps rows ↔
      ∃ p, p ∈ ps ∧ ∃ r, r ∈ rows ∧ ∃ q,
        ((cellAt r p.1).isNa || !cellNeZero (cellAt r p.1)) = false ∧
        toNumericVsPy (cellAt r p.1) = some q ∧
        f = ⟨r.sec, r.sub, r.account, p.2, parse_period_to_date (Cell.str p.2), q⟩ := by
  induction ps with
  | nil => simp [meltVsPyAux]
  | cons p t ih =>
    obtain ⟨j, c⟩ := p
    simp only [meltVsPyAux, List.mem_append, ih, List.mem_filterMap]
    constructor
    · rintro (⟨r, hr, hfr⟩ | ⟨p', hp', rest⟩)
      · refine ⟨(j, c), List.mem_cons_self _ _, r, hr, ?_⟩
        split at hfr
        · exact absurd hfr (by simp)
        · rename_i hna
          split at hfr
          · rename_i q hq
            exact ⟨q, by simpa using hna, hq, by injection hfr with h; exact h.symm⟩
          · exact absurd hfr (by simp)
      · exact ⟨p', List.mem_cons_of_mem _ hp', rest⟩
    · rintro ⟨p', hp', r, hr, q, hna, hco, hf⟩
      rcases List.mem_cons.mp hp' with h | h
      · subst h
        left
        refine ⟨r, hr, ?_⟩
        simp only at hna hco hf
        rw [hna, hco]
        simpa using hf.symm
      · right
        exact ⟨p', h, r, hr, q, hna, hco, hf⟩

theorem transformPLWide_no_total (dp : Bool) (cols : List Str) (rows : List PRow) :
    ∀ r ∈ transformPLWide dp cols rows, startsTotalOpt r.account = false := by
  intro r hr
  rw [transformPLWide, s7] at hr
  have := (List.mem_filter.mp hr).2
  simpa using this

theorem transformPLWide_fact_accounts (dp : Bool) (cols : List Str) (rows : List PRow) :
    ∀ f ∈ meltPlain cols (transformPLWide dp cols rows),
      ∃ r ∈ transformPLWide dp cols rows, f.account = r.account := by
  intro f hf
  obtain ⟨p, hp, r, hr, q, hna, hco, hfe⟩ := mem_meltPlainAux.mp hf
  exact ⟨r, hr, by rw [hfe]⟩

theorem bvGo_account : ∀ (l : List BVRow) (cur : Option Str) (r : BVOut), r ∈ bvGo l cur →
    ∃ r0 ∈ l, r.account = r0.account := by
  intro l
  induction l with
  | nil => intro cur r hr; simp [bvGo] at hr
  | cons x xs ih =>
    intro cur r hr
    rw [bvGo] at hr
    split at hr
    · obtain ⟨r0, h0, he⟩ := ih _ r hr
      exact ⟨r0, List.mem_cons_of_mem _ h0, he⟩
    · rcases List.mem_cons.mp hr with h | h
      · subst h; exact ⟨x, List.mem_cons_self _ _, rfl⟩
      · obtain ⟨r0, h0, he⟩ := ih _ r h
        exact ⟨r0, List.mem_cons_of_mem _ h0, he⟩

theorem transformBV_account_src (dp : Bool) (rows : List BVRow) :
    ∀ r ∈ transform_budget_variance_wide dp rows,
      ∃ r0, r0 ∈ (rows.filter (fun r => !(r.account.isNone && allNa r.values))).map
          (fun r => { r with account := cleanAcctBV r.account }) ∧
        startsTotalOpt r0.account = false ∧ r.account = r0.account := by
  intro r hr
  rw [transform_budget_variance_wide] at hr
  obtain ⟨r1, hr1, he1⟩ := List.mem_map.mp hr
  have hacc1 : r.account = r1.account := by rw [← he1]
  have hr2 : ∃ r2, r2 ∈ bvGo (((rows.filter (fun r => !(r.account.isNone && allNa r.values))).map
      (fun r => { r with account := cleanAcctBV r.account })).filter
        (fun r => !startsTotalOpt r.account)) none ∧ r1.account = r2.account := by
    cases dp with
    | true =>
      rw [if_pos rfl] at hr1
      exact ⟨r1, hr1, rfl⟩
    | false =>
      rw [if_neg (by simp)] at hr1
      obtain ⟨r2, hr2, he2⟩ := List.mem_map.mp hr1
      refine ⟨r2, hr2, ?_⟩
      rw [← he2]
      split
      · rfl
      · rfl
  obtain ⟨r2, hr2mem, hacc2⟩ := hr2
  obtain ⟨r0, h0, he0⟩ := bvGo_account _ _ r2 hr2mem
  have h0f := List.mem_filter.mp h0
  refine ⟨r0, h0f.1, by simpa using h0f.2, ?_⟩
  rw [hacc1, hacc2, he0]

theorem transformBV_no_total (dp : Bool) (rows : List BVRow) :
    ∀ r ∈ transform_budget_variance_wide dp rows, startsTotalOpt r.account = false := by
  intro r hr
  obtain ⟨r0, _, hnt, he⟩ := transformBV_account_src dp rows r hr
  rw [he]
  exact hnt

theorem bscan_no_total : ∀ (rows : List BSRow) (cur : Option Str) (rec : BSRec),
    rec ∈ bscan rows cur → isPrefixB ("total ".toList) (lower rec.account) = false := by
  intro rows
  induction rows with
  | nil => intro cur rec h; simp [bscan] at h
  | cons x xs ih =>
    intro cur rec h
    rw [bscan] at h
    rcases hx : x.account with _ | a0
    · rw [hx] at h
      exact ih _ rec h
    · rw [hx] at h
      simp only at h
      by_cases hna : allNa x.values = true
      · rw [if_pos hna] at h
        exact ih _ rec h
      · rw [if_neg hna] at h
        by_cases ht : isPrefixB ("total ".toList) (lower (trimL a0)) = true
        · rw [if_pos ht] at h
          exact ih _ rec h
        · rw [if_neg ht] at h
          rcases List.mem_cons.mp h with hh | hh
          · subst hh
            simpa using ht
          · exact ih _ rec hh

theorem bsLong_account_src (dp : Bool) (cols : List Str) (recs : List BSRec) :
    ∀ f ∈ bsLong dp cols recs, ∃ rec ∈ recs, (f : BSFact).account = rec.account := by
  intro f hf
  rw [bsLong] at hf
  obtain ⟨x, hx, hmap⟩ := List.mem_map.mp hf
  have hx2 : x ∈ bsMeltAux cols.enum recs := by
    revert hx
    split
    · intro hx; exact (List.mem_filter.mp hx).1
    · intro hx; exact hx
  obtain ⟨p, hp, r, hr, q, hna, hco, hxe⟩ := mem_bsMeltAux.mp hx2
  refine ⟨r, hr, ?_⟩
  rw [← hmap, hxe]

/-- Claim C3, amended: the Profit-and-Loss family (plain, vs-PY and balance
sheet) and the Budget Variance transform never output a HierarchyRow or FactRow
whose account starts with "total" case-insensitively; `transform_budget_summary`
however only excludes labels starting with `"total "` (with a trailing space), so
a label such as "Totals" or a bare "Total" survives as an output account (the
counterexample); its outputs are guaranteed total-free only for the
trailing-space pattern. -/
theorem claim_C3_amended :
    (∀ (dp : Bool) (cols : List Str) (rows : List PRow),
        ∀ r ∈ transformPLWide dp cols rows, startsTotalOpt r.account = false) ∧
    (∀ (dp : Bool) (cols : List Str) (rows : List PRow),
        ∀ f ∈ transform_profit_and_loss dp cols rows, startsTotalOpt f.account = false) ∧
    (∀ (dp : Bool) (cols : List Str) (rows : List PRow),
        ∀ f ∈ transform_balance_sheet dp cols rows, startsTotalOpt f.account = false) ∧
    (∀ (dp : Bool) (cols : List Str) (rows : List PRow),
        ∀ f ∈ vsPyFacts cols (transformPLWide dp cols rows),
          startsTotalOpt f.account = false) ∧
    (∀ (dp : Bool) (rows : List BVRow),
        ∀ r ∈ transform_budget_variance_wide dp rows, startsTotalOpt r.account = false) ∧
    (∀ (dp : Bool) (cols : List Str) (rows : List BVRow),
        ∀ f ∈ transform_budget_variance_long dp cols rows,
          startsTotalOpt f.account = false) ∧
    (∀ (rows : List BSRow) (cur : Option Str),
        ∀ rec ∈ bscan rows cur,
          isPrefixB ("total ".toList) (lower rec.account) = false) ∧
    (∀ (dp : Bool) (cols : List Str) (recs : List BSRec),
        ∀ f ∈ bsLong dp cols recs,
          (∀ rec ∈ recs, isPrefixB ("total ".toList) (lower rec.account) = false) →
          isPrefixB ("total ".toList) (lower f.account) = false) := by
  refine ⟨transformPLWide_no_total, ?_, ?_, ?_, transformBV_no_total, ?_, bscan_no_total, ?_⟩
  · intro dp cols rows f hf
    obtain ⟨r, hr, he⟩ := transformPLWide_fact_accounts dp cols rows f hf
    rw [he]
    exact transformPLWide_no_total dp cols rows r hr
  · intro dp cols rows f hf
    obtain ⟨r, hr, he⟩ := transformPLWide_fact_accounts dp cols rows f hf
    rw [he]
    exact transformPLWide_no_total dp cols rows r hr
  · intro dp cols rows f hf
    obtain ⟨p, hp, r, hr, q, hna, hco, hfe⟩ := mem_meltVsPyAux.mp hf
    rw [hfe]
    exact transformPLWide_no_total dp cols rows r hr
  · intro dp cols rows f hf
    rw [transform_budget_variance_long] at hf
    obtain ⟨p, hp, r, hr, q, hna, hco, hfe⟩ := mem_meltBVAux.mp hf
    rw [hfe]
    exact transformBV_no_total dp rows r hr
  · intro dp cols recs f hf hrecs
    obtain ⟨rec, hrec, he⟩ := bsLong_account_src dp cols recs f hf
    rw [he]
    exact hrecs rec hrec

/-- Claim C3, witness for the amended theorem, on a grid with total rows in both
the Section and the Account columns. -/
theorem claim_C3_witness :
    ∀ r ∈ transformPLWide true [("Jan 2025").toList]
        [⟨some ("Rev".toList), none, none, [Cell.na]⟩,
         ⟨none, none, some ("Sales".toList), [Cell.num 2]⟩,
         ⟨none, none, some ("Total Rev".toList), [Cell.num 2]⟩,
         ⟨some ("Total".toList), none, none, [Cell.num 2]⟩],
      startsTotalOpt r.account = false :=
  claim_C3_amended.1 true [("Jan 2025").toList]
    [⟨some ("Rev".toList), none, none, [Cell.na]⟩,
     ⟨none, none, some ("Sales".toList), [Cell.num 2]⟩,
     ⟨none, none, some ("Total Rev".toList), [Cell.num 2]⟩,
     ⟨some ("Total".toList), none, none, [Cell.num 2]⟩]

theorem matchTok_append {w t u r : Str} (h : matchTok w t = some r) :
    matchTok w (t ++ u) = some (r ++ u) := by
  induction w generalizing t with
  | nil =>
    rw [matchTok] at h
    injection h with h
    subst h
    rfl
  | cons p ps ih =>
    cases t with
    | nil => rw [matchTok] at h; cases h
    | cons c cs =>
      rw [matchTok] at h
      split at h
      · rename_i hc
        rw [List.cons_append, matchTok, if_pos hc]
        exact ih h
      · cases h

theorem isPrefixB_ne_nil {w : Str} (hw : w ≠ []) (h : isPrefixB w [] = true) : False := by
  cases w with
  | nil => exact hw rfl
  | cons p ps => rw [isPrefixB, matchTok] at h; cases h

theorem dropWhile_append_ne_nil {p : Char → Bool} {r : Str} (h : r.dropWhile p ≠ []) (u : Str) :
    (r ++ u).dropWhile p = r.dropWhile p ++ u := by
  induction r with
  | nil => exact absurd rfl h
  | cons c cs ih =>
    by_cases hc : p c = true
    · rw [List.cons_append, List.dropWhile_cons_of_pos hc, ih, List.dropWhile_cons_of_pos hc]
      rw [List.dropWhile_cons_of_pos hc] at h
      exact h
    · rw [List.cons_append, List.dropWhile_cons_of_neg hc, List.dropWhile_cons_of_neg hc,
        List.cons_append]

theorem isPrefixB_append {w d u : Str} (_hw : w ≠ []) (h : isPrefixB w d = true) :
    isPrefixB w (d ++ u) = true := by
  rw [isPrefixB] at h
  cases hm : matchTok w d with
  | none => rw [hm] at h; cases h
  | some r =>
    rw [isPrefixB, matchTok_append hm]
    rfl

theorem isPrefixB_dropWhile_append {w r u : Str} (hw : w ≠ [])
    (h : isPrefixB w (r.dropWhile isWs) = true) :
    isPrefixB w ((r ++ u).dropWhile isWs) = true := by
  have hne : r.dropWhile isWs ≠ [] := by
    intro hnil
    rw [hnil] at h
    exact isPrefixB_ne_nil hw h
  rw [dropWhile_append_ne_nil hne]
  exact isPrefixB_append hw h

theorem profitAt_append {t u : Str} (h : profitAt t = true) : profitAt (t ++ u) = true := by
  rw [profitAt] at h ⊢
  rcases Bool.or_eq_true_iff.mp h with h1 | h1
  · apply Bool.or_eq_true_iff.mpr
    left
    cases hm : matchTok ("gross".toList) t with
    | none => rw [hm] at h1; cases h1
    | some r =>
      rw [hm] at h1
      rw [matchTok_append hm]
      exact isPrefixB_dropWhile_append (by decide) h1
  · apply Bool.or_eq_true_iff.mpr
    right
    cases hm : matchTok ("net".toList) t with
    | none => rw [hm] at h1; cases h1
    | some r =>
      rw [hm] at h1
      rw [matchTok_append hm]
      exact isPrefixB_dropWhile_append (by decide) h1

theorem containsProfit_append {t u : Str} (h : containsProfit t = true) :
    containsProfit (t ++ u) = true := by
  induction t with
  | nil => rw [containsProfit] at h; cases h
  | cons c cs ih =>
    rw [containsProfit] at h
    rcases Bool.or_eq_true_iff.mp h with h1 | h1
    · rw [List.cons_append, containsProfit]
      apply Bool.or_eq_true_iff.mpr
      left
      rw [← List.cons_append]
      exact profitAt_append h1
    · rw [List.cons_append, containsProfit]
      apply Bool.or_eq_true_iff.mpr
      right
      exact ih h1

theorem containsProfit_left {p m : Str} (h : containsProfit m = true) :
    containsProfit (p ++ m) = true := by
  induction p with
  | nil => exact h
  | cons c cs ih =>
    rw [List.cons_append, containsProfit]
    apply Bool.or_eq_true_iff.mpr
    right
    exact ih

theorem rstripL_decomp : ∀ cs : Str, ∃ w, cs = rstripL cs ++ w := by
  intro cs
  induction cs with
  | nil => exact ⟨[], rfl⟩
  | cons c t ih =>
    obtain ⟨w, hw⟩ := ih
    rw [rstripL]
    cases hr : rstripL t with
    | nil =>
      by_cases hc : isWs c = true
      · rw [if_pos hc]
        exact ⟨c :: t, rfl⟩
      · rw [if_neg hc]
        refine ⟨w, ?_⟩
        rw [hr] at hw
        simpa using hw
    | cons d ds =>
      refine ⟨w, ?_⟩
      rw [hr] at hw
      rw [List.cons_append, ← hw]

theorem trimL_decomp (s : Str) : ∃ w1 w2, s = w1 ++ (trimL s ++ w2) := by
  obtain ⟨w2, hw2⟩ := rstripL_decomp (s.dropWhile isWs)
  exact ⟨s.takeWhile isWs, w2, by
    conv_lhs => rw [← List.takeWhile_append_dropWhile isWs s]
    rw [hw2]
    rfl⟩

theorem containsProfit_trim {s : Str} (h : containsProfit (lower (trimL s)) = true) :
    containsProfit (lower s) = true := by
  obtain ⟨w1, w2, hs⟩ := trimL_decomp s
  rw [hs, lower, List.map_append, List.map_append]
  exact containsProfit_left (containsProfit_append h)

theorem profitB_cleanAcct {x : Option Str} (h : profitB (cleanAcct x) = true) :
    profitB x = true := by
  cases x with
  | none => rw [cleanAcct] at h; exact h
  | some s =>
    rw [cleanAcct] at h
    split at h
    · rw [profitB] at h; cases h
    · rw [profitB] at h ⊢
      exact containsProfit_trim h

theorem dropWhile_head_false {p : Char → Bool} :
    ∀ (l : Str) (c : Char) (t : Str), l.dropWhile p = c :: t → p c = false := by
  intro l
  induction l with
  | nil => intro c t h; cases h
  | cons a l' ih =>
    intro c t h
    by_cases ha : p a = true
    · rw [List.dropWhile_cons_of_pos ha] at h
      exact ih c t h
    · rw [List.dropWhile_cons_of_neg ha] at h
      injection h with h1 _
      subst h1
      simpa using ha

theorem rstripL_idem : ∀ u : Str, rstripL (rstripL u) = rstripL u := by
  intro u
  induction u with
  | nil => rfl
  | cons c t ih =>
    rw [rstripL]
    cases hr : rstripL t with
    | nil =>
      by_cases hc : isWs c = true
      · rw [if_pos hc]; rfl
      · rw [if_neg hc, rstripL, rstripL, if_neg hc]
    | cons d ds =>
      rw [hr] at ih
      rw [rstripL, ih]

theorem trimL_idem (s : Str) : trimL (trimL s) = trimL s := by
  rw [trimL, trimL]
  have hdrop : (rstripL (s.dropWhile isWs)).dropWhile isWs = rstripL (s.dropWhile isWs) := by
    cases hu : rstripL (s.dropWhile isWs) with
    | nil => rfl
    | cons c t =>
      obtain ⟨w, hw⟩ := rstripL_decomp (s.dropWhile isWs)
      rw [hu] at hw
      rw [List.cons_append] at hw
      have hc : isWs c = false := dropWhile_head_false s c (t ++ w) hw
      rw [List.dropWhile_cons_of_neg (by simp [hc])]
  rw [hdrop, rstripL_idem]

theorem mem_s5_mem (h : Bool) (l : List PRow) : ∀ r ∈ s5 h l, r ∈ l := by
  intro r hr
  rw [s5] at hr
  split at hr
  · exact (List.mem_filter.mp hr).1
  · exact hr

theorem transformPLWide_true_no_profit (cols : List Str) (rows : List PRow) :
    ∀ r ∈ transformPLWide true cols rows, profitB r.account = false := by
  intro r hr
  rw [transformPLWide, s7] at hr
  have hr6 := (List.mem_filter.mp hr).1
  rw [s6] at hr6
  obtain ⟨r5, hr5, hmap⟩ := List.mem_map.mp hr6
  have h5 : r5 ∈ s4 true (s3 (s2 (s1 (s0 rows)))) := mem_s5_mem _ _ r5 hr5
  rw [s4, if_pos rfl] at h5
  have hnp := (List.mem_filter.mp h5).2
  subst hmap
  cases hp : profitB (cleanAcct r5.account) with
  | false => rfl
  | true =>
    exfalso
    have := profitB_cleanAcct hp
    rw [this] at hnp
    simp at hnp

theorem transformPLWide_false_profit (cols : List Str) (rows : List PRow) :
    ∀ r ∈ transformPLWide false cols rows, profitB r.account = true →
      r.sec = r.sub ∧ ∃ a, r.sec = some a ∧ r.account = some (trimL a) ∧
        containsProfit (lower a) = true := by
  intro r hr hp
  rw [transformPLWide, s7] at hr
  have hr6 := (List.mem_filter.mp hr).1
  rw [s6] at hr6
  obtain ⟨r5, hr5, hmap⟩ := List.mem_map.mp hr6
  have h5 : r5 ∈ s4 false (s3 (s2 (s1 (s0 rows)))) := mem_s5_mem _ _ r5 hr5
  rw [s4, if_neg (by simp)] at h5
  obtain ⟨r4, hr4, hmap4⟩ := List.mem_map.mp h5
  subst hmap
  simp only at hp
  have hp5 : profitB r5.account = true := profitB_cleanAcct hp
  have hover : r5.sec = r5.account ∧ r5.sub = r5.account := by
    by_cases hp4 : profitB r4.account = true
    · rw [if_pos hp4] at hmap4
      rw [← hmap4]
      exact ⟨rfl, rfl⟩
    · rw [if_neg hp4] at hmap4
      subst hmap4
      exact absurd hp5 hp4
  cases hacc : r5.account with
  | none => rw [hacc, profitB] at hp5; cases hp5
  | some a =>
    rw [hacc] at hover
    by_cases hnan : trimL a = ("nan".toList : Str)
    · exfalso
      have hnone : cleanAcct (some a) = none := by
        simp [cleanAcct, hnan]
      rw [hacc, hnone] at hp
      simp [profitB] at hp
    · have hnan2 : ¬ trimL a = (['n', 'a', 'n'] : Str) := by simpa using hnan
      have hclean : cleanAcct (some a) = some (trimL a) := by
        simp [cleanAcct, hnan2]
      refine ⟨by simp [hover.1, hover.2], a, ?_, ?_, ?_⟩
      · simpa using hover.1
      · simpa using hclean
      · rw [hacc, profitB] at hp5
        exact hp5

theorem cleanAcctBV_trimmed {x : Option Str} {a : Str} (h : cleanAcctBV x = some a) :
    trimL a = a := by
  cases x with
  | none =>
    rw [cleanAcctBV] at h
    injection h with h
    subst h
    decide
  | some s =>
    rw [cleanAcctBV] at h
    split at h
    · cases h
    · injection h with h
      subst h
      exact trimL_idem s

theorem transformBV_false_profit (rows : List BVRow) :
    ∀ r ∈ transform_budget_variance_wide false rows, profitB r.account = true →
      r.sec = r.account := by
  intro r hr hp
  obtain ⟨r0, hr0, hnt, hacc0⟩ := transformBV_account_src false rows r hr
  rw [transform_budget_variance_wide] at hr
  rw [if_neg (by simp)] at hr
  obtain ⟨r1, hr1, he1⟩ := List.mem_map.mp hr
  obtain ⟨r2, hr2, he2⟩ := List.mem_map.mp hr1
  have haccr : r.account = r1.account := by rw [← he1]
  have hacc12 : r1.account = r2.account := by
    rw [← he2]
    split
    · rfl
    · rfl
  have hp2 : profitB r2.account = true := by rw [← hacc12, ← haccr]; exact hp
  have hsec1 : r1.sec = r2.account := by
    rw [← he2]
    split
    · rfl
    · rename_i hnp
      exact absurd hp2 hnp
  -- the account came through cleanAcctBV, so it is already stripped
  obtain ⟨raw, hraw, hmapraw⟩ := List.mem_map.mp hr0
  have htrim : ∀ b, r0.account = some b → trimL b = b := by
    intro b hb
    have hx : cleanAcctBV raw.account = some b := by
      rw [← hb, ← hmapraw]
    exact cleanAcctBV_trimmed hx
  cases haccb : r0.account with
  | none =>
    exfalso
    rw [hacc0, haccb, profitB] at hp
    cases hp
  | some b =>
    have hb : trimL b = b := htrim b haccb
    have hbne : ¬ (trimL b = ("nan".toList : Str)) := by
      intro hnan
      rw [hb] at hnan
      subst hnan
      rw [hacc0, haccb, profitB] at hp
      exact absurd hp (by decide)
    have hbne2 : ¬ b = (['n', 'a', 'n'] : Str) := by
      rw [hb] at hbne
      simpa using hbne
    have hclean : cleanSecBV (some b) = some b := by
      simp [cleanSecBV, hbne2, hb]
    have hsecr : r.sec = cleanSecBV r1.sec := by rw [← he1]
    rw [hsecr, hsec1, ← hacc12, ← haccr, hacc0, haccb, hclean]

theorem bsLong_true_no_profit (cols : List Str) (recs : List BSRec) :
    ∀ f ∈ bsLong true cols recs, isProfitName f.account = false := by
  intro f hf
  rw [bsLong] at hf
  rw [if_pos rfl] at hf
  obtain ⟨x, hx, hmap⟩ := List.mem_map.mp hf
  have := (List.mem_filter.mp hx).2
  rw [← hmap]
  simpa using this

/-- Claim C4, amended: in the P&L family (plain, vs-PY, balance sheet) with
drop_profit_rows=False, every retained profit-matching row has section and
subsection both overridden to the row's own (pre-strip) account, and with
drop_profit_rows=True profit-matching rows are absent from the output; in
transform_budget_variance_report only the Section is overridden (there is no
subsection) and drop_profit_rows=True retains profit rows unchanged (the
counterexample); in transform_budget_summary drop_profit_rows=False keeps the
carried section on profit rows instead of overriding it (final conjunct), and
drop_profit_rows=True removes only accounts that strip-lowercase to exactly
"gross profit"/"net profit". -/
theorem claim_C4_amended :
    (∀ (cols : List Str) (rows : List PRow),
        ∀ r ∈ transformPLWide false cols rows, profitB r.account = true →
          r.sec = r.sub ∧ ∃ a, r.sec = some a ∧ r.account = some (trimL a) ∧
            containsProfit (lower a) = true) ∧
    (∀ (cols : List Str) (rows : List PRow),
        ∀ r ∈ transformPLWide true cols rows, profitB r.account = false) ∧
    (∀ rows : List BVRow,
        ∀ r ∈ transform_budget_variance_wide false rows, profitB r.account = true →
          r.sec = r.account) ∧
    (∀ (cols : List Str) (recs : List BSRec),
        ∀ f ∈ bsLong true cols recs, isProfitName f.account = false) ∧
    (bscan [⟨some ("Revenue".toList), [Cell.na]⟩,
            ⟨some ("Sales".toList), [Cell.num 1]⟩,
            ⟨some ("Gross Profit".toList), [Cell.num 2]⟩] none =
       [⟨"Sales".toList, "Revenue".toList, [Cell.num 1]⟩,
        ⟨"Gross Profit".toList, "Revenue".toList, [Cell.num 2]⟩]) :=
  ⟨transformPLWide_false_profit, transformPLWide_true_no_profit,
   transformBV_false_profit, bsLong_true_no_profit, by decide⟩

/-- Claim C4, witness for the amended theorem: a concrete Net Profit row with
drop_profit_rows=False gets section = subsection = its own account. -/
theorem claim_C4_witness :
    (⟨some ("Net Profit".toList), some ("Net Profit".toList),
      some ("Net Profit".toList), [Cell.num 5]⟩ : PRow).sec =
      (⟨some ("Net Profit".toList), some ("Net Profit".toList),
        some ("Net Profit".toList), [Cell.num 5]⟩ : PRow).sub ∧
    ∃ a, (⟨some ("Net Profit".toList), some ("Net Profit".toList),
        some ("Net Profit".toList), [Cell.num 5]⟩ : PRow).sec = some a ∧
      (⟨some ("Net Profit".toList), some ("Net Profit".toList),
        some ("Net Profit".toList), [Cell.num 5]⟩ : PRow).account = some (trimL a) ∧
      containsProfit (lower a) = true :=
  claim_C4_amended.1 [("Jan 2025").toList]
    [⟨some ("Rev".toList), none, none, [Cell.na]⟩,
     ⟨none, none, some ("Net Profit".toList), [Cell.num 5]⟩]
    ⟨some ("Net Profit".toList), some ("Net Profit".toList),
      some ("Net Profit".toList), [Cell.num 5]⟩
    (by decide) (by decide)

theorem bscan_sec_own_or_nonempty : ∀ (rows : List BSRow) (cur : Option Str),
    ∀ rec ∈ bscan rows cur, rec.sec = rec.account ∨ rec.sec ≠ ([] : Str) := by
  intro rows
  induction rows with
  | nil => intro cur rec h; simp [bscan] at h
  | cons x xs ih =>
    intro cur rec h
    rw [bscan] at h
    rcases hx : x.account with _ | a0
    · rw [hx] at h
      exact ih _ rec h
    · rw [hx] at h
      simp only at h
      by_cases hna : allNa x.values = true
      · rw [if_pos hna] at h
        exact ih _ rec h
      · rw [if_neg hna] at h
        by_cases ht : isPrefixB ("total ".toList) (lower (trimL a0)) = true
        · rw [if_pos ht] at h
          exact ih _ rec h
        · rw [if_neg ht] at h
          rcases List.mem_cons.mp h with hh | hh
          · subst hh
            cases hc : cur with
            | none => left; rfl
            | some c =>
              by_cases hce : c = ([] : Str)
              · left
                simp [hce]
              · right
                simp [hce]
          · exact ih _ rec hh

/-- Claim C10, amended: the budget-summary scan behaves as the claim describes —
null accounts are skipped; all-values-null rows set the carried section; rows
whose stripped account starts with "total " (case-insensitive) reset the carried
section to none **provided they have at least one non-null value** (a valueless
total row is consumed as a section header instead, per the counterexample);
a data row takes the carried section when one is set and non-empty and its own
account otherwise, so every record's section is its own account or a non-empty
carried header; an exact "Gross Profit"/"Net Profit" data row is emitted with
the carried section and then resets it; and when the scan keeps no rows the
transform raises instead of returning an empty table. -/
theorem claim_C10_amended :
    (∀ (x : BSRow) (rs : List BSRow) (cur : Option Str),
        x.account = none → bscan (x :: rs) cur = bscan rs cur) ∧
    (∀ (x : BSRow) (rs : List BSRow) (cur : Option Str) (a : Str),
        x.account = some a → allNa x.values = true →
        bscan (x :: rs) cur = bscan rs (some (trimL a))) ∧
    (∀ (x : BSRow) (rs : List BSRow) (cur : Option Str) (a : Str),
        x.account = some a → allNa x.values = false →
        isPrefixB ("total ".toList) (lower (trimL a)) = true →
        bscan (x :: rs) cur = bscan rs none) ∧
    (∀ (x : BSRow) (rs : List BSRow) (c a : Str),
        x.account = some a → allNa x.values = false →
        isPrefixB ("total ".toList) (lower (trimL a)) = false →
        (trimL a = ("Gross Profit".toList : Str) ∨ trimL a = ("Net Profit".toList : Str)) →
        ¬ c = ([] : Str) →
        bscan (x :: rs) (some c) = ⟨trimL a, c, x.values⟩ :: bscan rs none) ∧
    (∀ (x : BSRow) (rs : List BSRow) (a : Str),
        x.account = some a → allNa x.values = false →
        isPrefixB ("total ".toList) (lower (trimL a)) = false →
        bscan (x :: rs) none = ⟨trimL a, trimL a, x.values⟩ :: bscan rs none) ∧
    (∀ (rows : List BSRow) (cur : Option Str),
        ∀ rec ∈ bscan rows cur, rec.sec = rec.account ∨ rec.sec ≠ ([] : Str)) ∧
    (∀ (dp : Bool) (cols : List Str) (rows : List BSRow),
        bscan rows none = [] →
        transform_budget_summary dp cols rows =
          .error ("No valid data rows found after filtering.".toList)) := by
  refine ⟨?_, ?_, ?_, ?_, ?_, bscan_sec_own_or_nonempty, ?_⟩
  · intro x rs cur hx
    rw [bscan, hx]
  · intro x rs cur a hx hna
    rw [bscan, hx]
    simp only
    rw [if_pos hna]
  · intro x rs cur a hx hna ht
    rw [bscan, hx]
    simp only
    rw [if_neg (by simp [hna]), if_pos ht]
  · intro x rs c a hx hna ht hgp hc
    rw [bscan, hx]
    simp only
    rw [if_neg (by simp [hna]), if_neg (by simpa using ht), if_neg hc, if_pos hgp]
  · intro x rs a hx hna ht
    rw [bscan, hx]
    simp only
    rw [if_neg (by simp [hna]), if_neg (by simpa using ht)]
    simp only [ite_self]
  · intro dp cols rows h
    rw [transform_budget_summary]
    simp [h]

/-- Claim C10, witness: a concrete Net Profit data row under a carried section
"Revenue" is emitted with that section and resets the carried state. -/
theorem claim_C10_witness :
    bscan [⟨some ("Net Profit".toList), [Cell.num 2]⟩,
           ⟨some ("Opex".toList), [Cell.num 3]⟩] (some ("Revenue".toList)) =
      ⟨trimL ("Net Profit".toList), "Revenue".toList, [Cell.num 2]⟩ ::
        bscan [⟨some ("Opex".toList), [Cell.num 3]⟩] none :=
  claim_C10_amended.2.2.2.1 ⟨some ("Net Profit".toList), [Cell.num 2]⟩
    [⟨some ("Opex".toList), [Cell.num 3]⟩] ("Revenue".toList) ("Net Profit".toList)
    rfl (by decide) (by decide) (by decide) (by decide)

theorem digitVal?_dChar : ∀ k : Nat, k < 10 → digitVal? (dChar k) = some k := by
  intro k hk
  interval_cases k <;> decide

theorem isWs_dChar : ∀ k : Nat, k < 10 → isWs (dChar k) = false := by
  intro k hk
  interval_cases k <;> decide

theorem lowerC_dChar : ∀ k : Nat, k < 10 → lowerC (dChar k) = dChar k := by
  intro k hk
  interval_cases k <;> decide

theorem digitVal?_le9 {c : Char} {v : Nat} (h : digitVal? c = some v) : v ≤ 9 := by
  rw [digitVal?] at h
  split at h
  · rename_i hc
    injection h with h
    simp only [Bool.and_eq_true, decide_eq_true_eq] at hc
    omega
  · exact Option.noConfusion h

theorem lower_pad4 (y : Nat) : lower (pad4 y) = pad4 y := by
  have h1 : y / 1000 % 10 < 10 := Nat.mod_lt _ (by norm_num)
  have h2 : y / 100 % 10 < 10 := Nat.mod_lt _ (by norm_num)
  have h3 : y / 10 % 10 < 10 := Nat.mod_lt _ (by norm_num)
  have h4 : y % 10 < 10 := Nat.mod_lt _ (by norm_num)
  simp [pad4, lower, lowerC_dChar _ h1, lowerC_dChar _ h2, lowerC_dChar _ h3, lowerC_dChar _ h4]

theorem wsPlus_space_pad4 (y : Nat) : wsPlus (' ' :: pad4 y) = some (pad4 y) := by
  have h1 : y / 1000 % 10 < 10 := Nat.mod_lt _ (by norm_num)
  rw [wsPlus]
  rw [if_pos (by decide)]
  rw [pad4, List.dropWhile_cons_of_neg (by simp [isWs_dChar _ h1])]

theorem fourDigits_pad4 (y : Nat) (h4 : y ≤ 9999) : fourDigits (pad4 y) = some (y, []) := by
  have h1 : y / 1000 % 10 < 10 := Nat.mod_lt _ (by norm_num)
  have h2 : y / 100 % 10 < 10 := Nat.mod_lt _ (by norm_num)
  have h3 : y / 10 % 10 < 10 := Nat.mod_lt _ (by norm_num)
  have h0 : y % 10 < 10 := Nat.mod_lt _ (by norm_num)
  rw [pad4, fourDigits, digitVal?_dChar _ h1, digitVal?_dChar _ h2, digitVal?_dChar _ h3,
    digitVal?_dChar _ h0]
  have hval : ((y / 1000 % 10 * 10 + y / 100 % 10) * 10 + y / 10 % 10) * 10 + y % 10 = y := by
    omega
  show some (((y / 1000 % 10 * 10 + y / 100 % 10) * 10 + y / 10 % 10) * 10 + y % 10,
    ([] : Str)) = some (y, ([] : Str))
  rw [hval]

theorem rstripL_last_nonws : ∀ (l : Str) (c : Char), isWs c = false → rstripL (l ++ [c]) = l ++ [c] := by
  intro l c hc
  induction l with
  | nil => simp [rstripL, hc]
  | cons a t ih =>
    rw [List.cons_append, rstripL, ih]
    cases h : t ++ [c] with
    | nil => exact absurd h (by simp)
    | cons d ds => rfl

theorem trimL_sandwich {c d : Char} (t : Str) (hc : isWs c = false) (hd : isWs d = false) :
    trimL (c :: (t ++ [d])) = c :: (t ++ [d]) := by
  rw [trimL, List.dropWhile_cons_of_neg (by simp [hc])]
  rw [show c :: (t ++ [d]) = (c :: t) ++ [d] from rfl]
  exact rstripL_last_nonws (c :: t) d hd

/-- The month-name-plus-space-plus-year string is already stripped when its first
character is not whitespace. -/
theorem trimL_month_year {c : Char} (rest : Str) (y : Nat) (hc : isWs c = false) :
    trimL ((c :: rest) ++ ' ' :: pad4 y) = (c :: rest) ++ ' ' :: pad4 y := by
  have h0 : y % 10 < 10 := Nat.mod_lt _ (by norm_num)
  have hsh : (c :: rest) ++ ' ' :: pad4 y =
      c :: ((rest ++ ' ' :: [dChar (y / 1000 % 10), dChar (y / 100 % 10), dChar (y / 10 % 10)])
        ++ [dChar (y % 10)]) := by
    simp [pad4]
  rw [hsh]
  exact trimL_sandwich _ hc (isWs_dChar _ h0)

theorem monthYearParse_success (table : List (Nat × Str)) (t : Str) (m y : Nat)
    (h1 : 1 ≤ y) (h4 : y ≤ 9999)
    (hm : matchMonth table (lower t) = some (m, ' ' :: pad4 y)) :
    monthYearParse table t = some ⟨y, m, 1⟩ := by
  rw [monthYearParse, hm]
  simp only [wsPlus_space_pad4, fourDigits_pad4 y h4]
  rw [if_pos h1]

theorem monthYearParse_fail_ws (table : List (Nat × Str)) (t : Str) (m : Nat) (rest : Str)
    (hm : matchMonth table (lower t) = some (m, rest)) (hrest : wsPlus rest = none) :
    monthYearParse table t = none := by
  rw [monthYearParse, hm]
  simp only [hrest]

theorem matchTok_sound : ∀ (p cs r : Str), matchTok p cs = some r → cs = p ++ r := by
  intro p
  induction p with
  | nil =>
    intro cs r h
    rw [matchTok] at h
    simpa using h
  | cons a ps ih =>
    intro cs r h
    cases cs with
    | nil => rw [matchTok] at h; cases h
    | cons c cs' =>
      rw [matchTok] at h
      split at h
      · rename_i hca
        subst hca
        rw [List.cons_append]
        rw [ih cs' r h]
      · cases h

theorem matchMonth_sound : ∀ (table : List (Nat × Str)) (cs : Str) (m : Nat) (r : Str),
    matchMonth table cs = some (m, r) → ∃ name, (m, name) ∈ table ∧ cs = name ++ r := by
  intro table
  induction table with
  | nil => intro cs m r h; rw [matchMonth] at h; cases h
  | cons e rest ih =>
    intro cs m r h
    obtain ⟨me, name⟩ := e
    rw [matchMonth] at h
    cases ht : matchTok name cs with
    | some r' =>
      rw [ht] at h
      injection h with h
      injection h with h1 h2
      subst h1
      subst h2
      exact ⟨name, List.mem_cons_self _ _, matchTok_sound _ _ _ ht⟩
    | none =>
      rw [ht] at h
      obtain ⟨name', hmem, he⟩ := ih cs m r h
      exact ⟨name', List.mem_cons_of_mem _ hmem, he⟩

theorem wsPlus_sound {cs r : Str} (h : wsPlus cs = some r) :
    ∃ w, w ≠ [] ∧ (∀ c ∈ w, isWs c = true) ∧ cs = w ++ r := by
  cases cs with
  | nil => rw [wsPlus] at h; cases h
  | cons c rest =>
    rw [wsPlus] at h
    split at h
    · rename_i hc
      injection h with h
      refine ⟨c :: rest.takeWhile isWs, by simp, ?_, ?_⟩
      · intro x hx
        rcases List.mem_cons.mp hx with hh | hh
        · subst hh; exact hc
        · exact List.mem_takeWhile_imp hh
      · rw [← h, List.cons_append, List.takeWhile_append_dropWhile]
    · cases h

theorem fourDigits_sound {cs : Str} {y : Nat} {r : Str} (h : fourDigits cs = some (y, r)) :
    ∃ ds, ds.length = 4 ∧ (∀ c ∈ ds, isDigitB c = true) ∧ digitsVal ds = y ∧ y ≤ 9999 ∧
      cs = ds ++ r := by
  match cs, h with
  | a :: b :: c :: d :: rest, h =>
    rw [fourDigits] at h
    cases ha : digitVal? a with
    | none => rw [ha] at h; cases h
    | some x1 =>
      cases hb : digitVal? b with
      | none => rw [ha, hb] at h; cases h
      | some x2 =>
        cases hcc : digitVal? c with
        | none => rw [ha, hb, hcc] at h; cases h
        | some x3 =>
          cases hd : digitVal? d with
          | none => rw [ha, hb, hcc, hd] at h; cases h
          | some x4 =>
            rw [ha, hb, hcc, hd] at h
            injection h with h
            injection h with h1 h2
            subst h2
            refine ⟨[a, b, c, d], rfl, ?_, ?_, ?_, rfl⟩
            · intro x hx
              simp only [List.mem_cons, List.not_mem_nil, or_false] at hx
              rcases hx with rfl | rfl | rfl | rfl <;>
                simp [isDigitB, ha, hb, hcc, hd]
            · rw [← h1]
              simp [digitsVal, ha, hb, hcc, hd]
            · have b1 := digitVal?_le9 ha
              have b2 := digitVal?_le9 hb
              have b3 := digitVal?_le9 hcc
              have b4 := digitVal?_le9 hd
              omega

theorem monthYearParse_sound (table : List (Nat × Str)) (t : Str) (d : Date)
    (h : monthYearParse table t = some d) :
    d.day = 1 ∧ 1 ≤ d.year ∧ d.year ≤ 9999 ∧
      ∃ name w ds, (d.month, name) ∈ table ∧ w ≠ [] ∧ (∀ c ∈ w, isWs c = true) ∧
        ds.length = 4 ∧ (∀ c ∈ ds, isDigitB c = true) ∧ digitsVal ds = d.year ∧
        lower t = name ++ (w ++ ds) := by
  rw [monthYearParse] at h
  cases hm : matchMonth table (lower t) with
  | none => rw [hm] at h; cases h
  | some p =>
    obtain ⟨m, r1⟩ := p
    rw [hm] at h
    simp only at h
    cases hw : wsPlus r1 with
    | none => rw [hw] at h; simp at h
    | some r2 =>
      rw [hw] at h
      simp only at h
      cases hf : fourDigits r2 with
      | none => rw [hf] at h; simp at h
      | some p2 =>
        obtain ⟨y, r3⟩ := p2
        rw [hf] at h
        cases r3 with
        | cons c cs => exact Option.noConfusion h
        | nil =>
          simp only at h
          by_cases hy : 1 ≤ y
          · rw [if_pos hy] at h
            injection h with h
            subst h
            obtain ⟨name, hname, he1⟩ := matchMonth_sound table (lower t) m r1 hm
            obtain ⟨w, hwne, hwall, he2⟩ := wsPlus_sound hw
            obtain ⟨ds, hdl, hdall, hdv, hdle, he3⟩ := fourDigits_sound hf
            refine ⟨rfl, hy, by simpa using hdle, name, w, ds, hname, hwne, hwall, hdl,
              hdall, by simpa using hdv, ?_⟩
            rw [he1, he2, he3]
            simp
          · rw [if_neg hy] at h
            exact Option.noConfusion h

theorem wsPlus_cons_nonws {c : Char} (hc : isWs c = false) (t : Str) :
    wsPlus (c :: t) = none := by
  rw [wsPlus, if_neg (by simp [hc])]

theorem parse_month_year_pos :
    ∀ (m : Nat) (name : Str) (y : Nat) (c : Char) (rest : Str),
      ((m, name) ∈ monthAbbrevs ∨ (m, name) ∈ monthFulls) →
      lower (c :: rest) = name → isWs c = false → 1 ≤ y → y ≤ 9999 →
      parse_period_to_date (Cell.str ((c :: rest) ++ ' ' :: pad4 y)) = some ⟨y, m, 1⟩ := by
  intro m name y c rest hmem hlow hc h1 h4
  have htrim := trimL_month_year rest y hc
  have hlowert : lower ((c :: rest) ++ ' ' :: pad4 y) = name ++ ' ' :: pad4 y := by
    rw [lower, List.map_append]
    rw [show (c :: rest).map lowerC = lower (c :: rest) from rfl, hlow]
    congr 1
    rw [List.map_cons]
    rw [show lowerC ' ' = ' ' from rfl]
    rw [show (pad4 y).map lowerC = lower (pad4 y) from rfl, lower_pad4]
  rw [parse_period_to_date]
  rw [htrim]
  rcases hmem with hab | hfu
  · simp only [monthAbbrevs, List.mem_cons, Prod.mk.injEq, List.not_mem_nil, or_false] at hab
    rcases hab with h | h | h | h | h | h | h | h | h | h | h | h <;>
      obtain ⟨rfl, rfl⟩ := h
    · rw [monthYearParse_success monthAbbrevs _ 1 y h1 h4
        (by rw [hlowert]; simp [monthAbbrevs, matchMonth, matchTok])]
    · rw [monthYearParse_success monthAbbrevs _ 2 y h1 h4
        (by rw [hlowert]; simp [monthAbbrevs, matchMonth, matchTok])]
    · rw [monthYearParse_success monthAbbrevs _ 3 y h1 h4
        (by rw [hlowert]; simp [monthAbbrevs, matchMonth, matchTok])]
    · rw [monthYearParse_success monthAbbrevs _ 4 y h1 h4
        (by rw [hlowert]; simp [monthAbbrevs, matchMonth, matchTok])]
    · rw [monthYearParse_success monthAbbrevs _ 5 y h1 h4
        (by rw [hlowert]; simp [monthAbbrevs, matchMonth, matchTok])]
    · rw [monthYearParse_success monthAbbrevs _ 6 y h1 h4
        (by rw [hlowert]; simp [monthAbbrevs, matchMonth, matchTok])]
    · rw [monthYearParse_success monthAbbrevs _ 7 y h1 h4
        (by rw [hlowert]; simp [monthAbbrevs, matchMonth, matchTok])]
    · rw [monthYearParse_success monthAbbrevs _ 8 y h1 h4
        (by rw [hlowert]; simp [monthAbbrevs, matchMonth, matchTok])]
    · rw [monthYearParse_success monthAbbrevs _ 9 y h1 h4
        (by rw [hlowert]; simp [monthAbbrevs, matchMonth, matchTok])]
    · rw [monthYearParse_success monthAbbrevs _ 10 y h1 h4
        (by rw [hlowert]; simp [monthAbbrevs, matchMonth, matchTok])]
    · rw [monthYearParse_success monthAbbrevs _ 11 y h1 h4
        (by rw [hlowert]; simp [monthAbbrevs, matchMonth, matchTok])]
    · rw [monthYearParse_success monthAbbrevs _ 12 y h1 h4
        (by rw [hlowert]; simp [monthAbbrevs, matchMonth, matchTok])]
  · simp only [monthFulls, List.mem_cons, Prod.mk.injEq, List.not_mem_nil, or_false] at hfu
    rcases hfu with h | h | h | h | h | h | h | h | h | h | h | h <;>
      obtain ⟨rfl, rfl⟩ := h
    · rw [monthYearParse_fail_ws monthAbbrevs _ 1 ("uary".toList ++ ' ' :: pad4 y)
        (by rw [hlowert]; simp [monthAbbrevs, matchMonth, matchTok])
        (wsPlus_cons_nonws (by decide) _)]
      exact monthYearParse_success _ _ _ _ h1 h4
        (by rw [hlowert]; simp [monthFulls, matchMonth, matchTok])
    · rw [monthYearParse_fail_ws monthAbbrevs _ 2 ("ruary".toList ++ ' ' :: pad4 y)
        (by rw [hlowert]; simp [monthAbbrevs, matchMonth, matchTok])
        (wsPlus_cons_nonws (by decide) _)]
      exact monthYearParse_success _ _ _ _ h1 h4
        (by rw [hlowert]; simp [monthFulls, matchMonth, matchTok])
    · rw [monthYearParse_fail_ws monthAbbrevs _ 3 ("ch".toList ++ ' ' :: pad4 y)
        (by rw [hlowert]; simp [monthAbbrevs, matchMonth, matchTok])
        (wsPlus_cons_nonws (by decide) _)]
      exact monthYearParse_success _ _ _ _ h1 h4
        (by rw [hlowert]; simp [monthFulls, matchMonth, matchTok])
    · rw [monthYearParse_fail_ws monthAbbrevs _ 4 ("il".toList ++ ' ' :: pad4 y)
        (by rw [hlowert]; simp [monthAbbrevs, matchMonth, matchTok])
        (wsPlus_cons_nonws (by decide) _)]
      exact monthYearParse_success _ _ _ _ h1 h4
        (by rw [hlowert]; simp [monthFulls, matchMonth, matchTok])
    · rw [monthYearParse_success monthAbbrevs _ 5 y h1 h4
        (by rw [hlowert]; simp [monthAbbrevs, matchMonth, matchTok])]
    · rw [monthYearParse_fail_ws monthAbbrevs _ 6 ("e".toList ++ ' ' :: pad4 y)
        (by rw [hlowert]; simp [monthAbbrevs, matchMonth, matchTok])
        (wsPlus_cons_nonws (by decide) _)]
      exact monthYearParse_success _ _ _ _ h1 h4
        (by rw [hlowert]; simp [monthFulls, matchMonth, matchTok])
    · rw [monthYearParse_fail_ws monthAbbrevs _ 7 ("y".toList ++ ' ' :: pad4 y)
        (by rw [hlowert]; simp [monthAbbrevs, matchMonth, matchTok])
        (wsPlus_cons_nonws (by decide) _)]
      exact monthYearParse_success _ _ _ _ h1 h4
        (by rw [hlowert]; simp [monthFulls, matchMonth, matchTok])
    · rw [monthYearParse_fail_ws monthAbbrevs _ 8 ("ust".toList ++ ' ' :: pad4 y)
        (by rw [hlowert]; simp [monthAbbrevs, matchMonth, matchTok])
        (wsPlus_cons_nonws (by decide) _)]
      exact monthYearParse_success _ _ _ _ h1 h4
        (by rw [hlowert]; simp [monthFulls, matchMonth, matchTok])
    · rw [monthYearParse_fail_ws monthAbbrevs _ 9 ("tember".toList ++ ' ' :: pad4 y)
        (by rw [hlowert]; simp [monthAbbrevs, matchMonth, matchTok])
        (wsPlus_cons_nonws (by decide) _)]
      exact monthYearParse_success _ _ _ _ h1 h4
        (by rw [hlowert]; simp [monthFulls, matchMonth, matchTok])
    · rw [monthYearParse_fail_ws monthAbbrevs _ 10 ("ober".toList ++ ' ' :: pad4 y)
        (by rw [hlowert]; simp [monthAbbrevs, matchMonth, matchTok])
        (wsPlus_cons_nonws (by decide) _)]
      exact monthYearParse_success _ _ _ _ h1 h4
        (by rw [hlowert]; simp [monthFulls, matchMonth, matchTok])
    · rw [monthYearParse_fail_ws monthAbbrevs _ 11 ("ember".toList ++ ' ' :: pad4 y)
        (by rw [hlowert]; simp [monthAbbrevs, matchMonth, matchTok])
        (wsPlus_cons_nonws (by decide) _)]
      exact monthYearParse_success _ _ _ _ h1 h4
        (by rw [hlowert]; simp [monthFulls, matchMonth, matchTok])
    · rw [monthYearParse_fail_ws monthAbbrevs _ 12 ("ember".toList ++ ' ' :: pad4 y)
        (by rw [hlowert]; simp [monthAbbrevs, matchMonth, matchTok])
        (wsPlus_cons_nonws (by decide) _)]
      exact monthYearParse_success _ _ _ _ h1 h4
        (by rw [hlowert]; simp [monthFulls, matchMonth, matchTok])

theorem parse_period_to_date_sound (s : Str) (d : Date)
    (h : parse_period_to_date (Cell.str s) = some d) :
    d.day = 1 ∧ 1 ≤ d.year ∧ d.year ≤ 9999 ∧
      ∃ name w ds, ((d.month, name) ∈ monthAbbrevs ∨ (d.month, name) ∈ monthFulls) ∧
        w ≠ [] ∧ (∀ ch ∈ w, isWs ch = true) ∧ ds.length = 4 ∧
        (∀ ch ∈ ds, isDigitB ch = true) ∧ digitsVal ds = d.year ∧
        lower (trimL s) = name ++ (w ++ ds) := by
  rw [parse_period_to_date] at h
  cases h1 : monthYearParse monthAbbrevs (trimL s) with
  | some d1 =>
    rw [h1] at h
    simp only at h
    injection h with h
    subst h
    obtain ⟨ha, hb, hc, name, w, ds, hm, hw, hwa, hdl, hda, hdv, he⟩ :=
      monthYearParse_sound monthAbbrevs (trimL s) d1 h1
    exact ⟨ha, hb, hc, name, w, ds, Or.inl hm, hw, hwa, hdl, hda, hdv, he⟩
  | none =>
    rw [h1] at h
    have h2 : monthYearParse monthFulls (trimL s) = some d := h
    obtain ⟨ha, hb, hc, name, w, ds, hm, hw, hwa, hdl, hda, hdv, he⟩ :=
      monthYearParse_sound monthFulls (trimL s) d h2
    exact ⟨ha, hb, hc, name, w, ds, Or.inr hm, hw, hwa, hdl, hda, hdv, he⟩

/-- Claim C6, amended: for every English month name — abbreviated or full, in any
letter case — followed by one space and a 4-digit year **between 0001 and 9999**,
`parse_period_to_date` returns the first day of that month and year; non-string
cells give None; and whenever it returns a date, the stripped, lower-cased input
decomposes exactly as a month name, whitespace, and four digits valuing the
returned year (so every other input shape gives None), the returned day is 1 and
the year is in 1..9999.  The original claim's "any 4-digit year" fails at year
0000, which `datetime` rejects (counterexample). -/
theorem claim_C6_amended :
    (∀ (m : Nat) (name : Str) (y : Nat) (c : Char) (rest : Str),
        ((m, name) ∈ monthAbbrevs ∨ (m, name) ∈ monthFulls) →
        lower (c :: rest) = name → isWs c = false → 1 ≤ y → y ≤ 9999 →
        parse_period_to_date (Cell.str ((c :: rest) ++ ' ' :: pad4 y)) = some ⟨y, m, 1⟩) ∧
    (∀ cl : Cell, (∀ s, cl ≠ Cell.str s) → parse_period_to_date cl = none) ∧
    (∀ (s : Str) (d : Date), parse_period_to_date (Cell.str s) = some d →
        d.day = 1 ∧ 1 ≤ d.year ∧ d.year ≤ 9999 ∧
          ∃ name w ds, ((d.month, name) ∈ monthAbbrevs ∨ (d.month, name) ∈ monthFulls) ∧
            w ≠ [] ∧ (∀ ch ∈ w, isWs ch = true) ∧ ds.length = 4 ∧
            (∀ ch ∈ ds, isDigitB ch = true) ∧ digitsVal ds = d.year ∧
            lower (trimL s) = name ++ (w ++ ds)) := by
  refine ⟨parse_month_year_pos, ?_, parse_period_to_date_sound⟩
  intro cl hcl
  cases cl with
  | na => rfl
  | num q => rfl
  | str s => exact absurd rfl (hcl s)

/-- Claim C6, witness: "Mar 2025" parses to 2025-03-01 through the amended
theorem's positive clause. -/
theorem claim_C6_witness :
    parse_period_to_date (Cell.str (('M' :: "ar".toList) ++ ' ' :: pad4 2025)) =
      some ⟨2025, 3, 1⟩ :=
  claim_C6_amended.1 3 ("mar".toList) 2025 'M' ("ar".toList)
    (Or.inl (by decide)) (by decide) (by decide) (by decide) (by decide)

theorem takeWhile_ne_nil_of_mem {p : Char → Bool} {l : Str} {c : Char} {t : Str}
    (h : l.takeWhile p = c :: t) : l.takeWhile p ≠ [] := by
  rw [h]
  simp

theorem matchTail_sound : ∀ (cs t : Str), matchTail cs = some t →
    ∃ post, cs = t ++ post ∧ tailShape t := by
  intro cs t h
  rw [matchTail] at h
  by_cases h1 : cs.takeWhile isWs = []
  · rw [if_pos h1] at h; cases h
  · rw [if_neg h1] at h
    by_cases h2 : (cs.dropWhile isWs).takeWhile isAlphaB = []
    · rw [if_pos h2] at h; cases h
    · rw [if_neg h2] at h
      by_cases h3 : ((cs.dropWhile isWs).dropWhile isAlphaB).takeWhile isWs = []
      · rw [if_pos h3] at h; cases h
      · rw [if_neg h3] at h
        cases hr3 : ((cs.dropWhile isWs).dropWhile isAlphaB).dropWhile isWs with
        | nil => rw [hr3] at h; cases h
        | cons a rest1 =>
          cases rest1 with
          | nil => rw [hr3] at h; cases h
          | cons b rest2 =>
            cases rest2 with
            | nil => rw [hr3] at h; cases h
            | cons c3 rest3 =>
              cases rest3 with
              | nil => rw [hr3] at h; cases h
              | cons d rest4 =>
                rw [hr3] at h
                simp only at h
                by_cases hd : (isDigitB a && isDigitB b && isDigitB c3 && isDigitB d) = true
                · rw [if_pos hd] at h
                  injection h with h
                  subst h
                  simp only [Bool.and_eq_true] at hd
                  have e1 : cs = cs.takeWhile isWs ++ cs.dropWhile isWs :=
                    (List.takeWhile_append_dropWhile isWs cs).symm
                  have e2 : cs.dropWhile isWs =
                      (cs.dropWhile isWs).takeWhile isAlphaB ++
                        (cs.dropWhile isWs).dropWhile isAlphaB :=
                    (List.takeWhile_append_dropWhile isAlphaB (cs.dropWhile isWs)).symm
                  have e3 : (cs.dropWhile isWs).dropWhile isAlphaB =
                      ((cs.dropWhile isWs).dropWhile isAlphaB).takeWhile isWs ++
                        ((cs.dropWhile isWs).dropWhile isAlphaB).dropWhile isWs :=
                    (List.takeWhile_append_dropWhile isWs
                      ((cs.dropWhile isWs).dropWhile isAlphaB)).symm
                  refine ⟨rest4, ?_, ?_⟩
                  · conv_lhs => rw [e1, e2, e3, hr3]
                    simp
                  · refine ⟨cs.takeWhile isWs, (cs.dropWhile isWs).takeWhile isAlphaB,
                      ((cs.dropWhile isWs).dropWhile isAlphaB).takeWhile isWs,
                      [a, b, c3, d], rfl, h1, ?_, h2, ?_, h3, ?_, rfl, ?_⟩
                    · intro x hx; exact List.mem_takeWhile_imp hx
                    · intro x hx; exact List.mem_takeWhile_imp hx
                    · intro x hx; exact List.mem_takeWhile_imp hx
                    · intro x hx
                      simp only [List.mem_cons, List.not_mem_nil, or_false] at hx
                      rcases hx with rfl | rfl | rfl | rfl
                      · exact hd.1.1.1
                      · exact hd.1.1.2
                      · exact hd.1.2
                      · exact hd.2
                · rw [if_neg hd] at h
                  cases h

theorem matchCandAt_sound : ∀ (cs mtc : Str), matchCandAt cs = some mtc →
    ∃ post, cs = mtc ++ post ∧ candShape mtc := by
  intro cs mtc h
  rw [matchCandAt.eq_def] at h
  cases cs with
  | nil => simp at h
  | cons c1 rest1 =>
    simp only at h
    by_cases hd1 : isDigitB c1 = true
    · rw [if_pos hd1] at h
      cases rest1 with
      | nil => cases h
      | cons c2 rest2 =>
        simp only at h
        by_cases hd2 : isDigitB c2 = true
        · rw [if_pos hd2] at h
          cases hmt : matchTail rest2 with
          | some t =>
            rw [hmt] at h
            injection h with h
            subst h
            obtain ⟨post, hpe, hts⟩ := matchTail_sound rest2 t hmt
            refine ⟨post, by rw [hpe]; rfl, [c1, c2], t, rfl, by simp, by simp, ?_, hts⟩
            intro x hx
            simp only [List.mem_cons, List.not_mem_nil, or_false] at hx
            rcases hx with rfl | rfl
            · exact hd1
            · exact hd2
          | none =>
            rw [hmt] at h
            cases hmt1 : matchTail (c2 :: rest2) with
            | none => rw [hmt1] at h; cases h
            | some t =>
              rw [hmt1] at h
              injection h with h
              subst h
              obtain ⟨post, hpe, hts⟩ := matchTail_sound _ t hmt1
              refine ⟨post, by rw [List.cons_append, ← hpe], [c1], t, rfl, by simp,
                by simp, ?_, hts⟩
              intro x hx
              simp only [List.mem_cons, List.not_mem_nil, or_false] at hx
              rcases hx with rfl
              exact hd1
        · rw [if_neg hd2] at h
          cases hmt1 : matchTail (c2 :: rest2) with
          | none => rw [hmt1] at h; cases h
          | some t =>
            rw [hmt1] at h
            injection h with h
            subst h
            obtain ⟨post, hpe, hts⟩ := matchTail_sound _ t hmt1
            refine ⟨post, by rw [List.cons_append, ← hpe], [c1], t, rfl, by simp,
              by simp, ?_, hts⟩
            intro x hx
            simp only [List.mem_cons, List.not_mem_nil, or_false] at hx
            rcases hx with rfl
            exact hd1
    · rw [if_neg hd1] at h
      cases h

theorem findCand_sound : ∀ (s m : Str), findCand s = some m →
    ∃ pre post, s = pre ++ (m ++ post) ∧ candShape m := by
  intro s
  induction s with
  | nil => intro m h; cases h
  | cons c cs ih =>
    intro m h
    rw [findCand] at h
    cases hma : matchCandAt (c :: cs) with
    | some m2 =>
      rw [hma] at h
      injection h with h2
      rw [← h2]
      obtain ⟨post, hpe, hcs⟩ := matchCandAt_sound _ m2 hma
      exact ⟨[], post, by simpa using hpe, hcs⟩
    | none =>
      rw [hma] at h
      obtain ⟨pre, post, hpe, hcs⟩ := ih m h
      exact ⟨c :: pre, post, by rw [List.cons_append, ← hpe], hcs⟩

theorem dmyParse1_sound (table : List (Nat × Str)) (t : Str) (d : Date)
    (h : dmyParse1 table t = some d) :
    1 ≤ d.day ∧ d.day ≤ daysInMonth d.year d.month ∧ 1 ≤ d.year ∧ d.year ≤ 9999 ∧
      ∃ name, (d.month, name) ∈ table := by
  rw [dmyParse1] at h
  cases h1 : dayTok (lower t) with
  | none => rw [h1] at h; cases h
  | some p1 =>
    obtain ⟨dd, r1⟩ := p1
    rw [h1] at h
    simp only at h
    cases h2 : wsPlus r1 with
    | none => rw [h2] at h; cases h
    | some r2 =>
      rw [h2] at h
      simp only at h
      cases h3 : matchMonth table r2 with
      | none => rw [h3] at h; cases h
      | some p2 =>
        obtain ⟨m, r3⟩ := p2
        rw [h3] at h
        simp only at h
        cases h4 : wsPlus r3 with
        | none => rw [h4] at h; cases h
        | some r4 =>
          rw [h4] at h
          simp only at h
          cases h5 : fourDigits r4 with
          | none => rw [h5] at h; cases h
          | some p3 =>
            obtain ⟨y, r5⟩ := p3
            rw [h5] at h
            cases r5 with
            | cons a b => exact Option.noConfusion h
            | nil =>
              simp only at h
              by_cases hok : 1 ≤ y ∧ 1 ≤ dd ∧ dd ≤ daysInMonth y m
              · rw [if_pos hok] at h
                injection h with h
                subst h
                obtain ⟨ds, hdl, hda, hdv, hdle, he⟩ := fourDigits_sound h5
                obtain ⟨name, hname, _⟩ := matchMonth_sound table r2 m r3 h3
                exact ⟨hok.2.1, hok.2.2, hok.1, by simpa using hdle, name, hname⟩
              · rw [if_neg hok] at h
                exact Option.noConfusion h

theorem not_alpha_of_ws {c : Char} (h : isWs c = true) : isAlphaB c = false := by
  simp only [isWs, Bool.or_eq_true, decide_eq_true_eq] at h
  rcases h with ((((rfl | rfl) | rfl) | rfl) | rfl) | rfl <;> decide

theorem not_ws_of_alpha {c : Char} (h : isAlphaB c = true) : isWs c = false := by
  cases hw : isWs c
  · rfl
  · rw [not_alpha_of_ws hw] at h
    exact Bool.noConfusion h

theorem not_digit_of_ws {c : Char} (h : isWs c = true) : isDigitB c = false := by
  simp only [isWs, Bool.or_eq_true, decide_eq_true_eq] at h
  rcases h with ((((rfl | rfl) | rfl) | rfl) | rfl) | rfl <;> decide

theorem not_ws_of_digit {c : Char} (h : isDigitB c = true) : isWs c = false := by
  cases hw : isWs c
  · rfl
  · rw [not_digit_of_ws hw] at h
    exact Bool.noConfusion h

theorem takeWhile_append_of_all {p : Char → Bool} {xs ys : Str} (h : ∀ c ∈ xs, p c = true) :
    (xs ++ ys).takeWhile p = xs ++ ys.takeWhile p := by
  induction xs with
  | nil => simp
  | cons x t ih =>
    rw [List.cons_append, List.takeWhile_cons_of_pos (h x (List.mem_cons_self x t)),
      ih (fun c hc => h c (List.mem_cons_of_mem x hc)), List.cons_append]

theorem dropWhile_append_of_all {p : Char → Bool} {xs ys : Str} (h : ∀ c ∈ xs, p c = true) :
    (xs ++ ys).dropWhile p = ys.dropWhile p := by
  induction xs with
  | nil => simp
  | cons x t ih =>
    rw [List.cons_append, List.dropWhile_cons_of_pos (h x (List.mem_cons_self x t))]
    exact ih (fun c hc => h c (List.mem_cons_of_mem x hc))

theorem matchTail_complete (w1 al w2 ds rest : Str)
    (hw1 : w1 ≠ []) (hw1a : ∀ c ∈ w1, isWs c = true)
    (hal : al ≠ []) (hala : ∀ c ∈ al, isAlphaB c = true)
    (hw2 : w2 ≠ []) (hw2a : ∀ c ∈ w2, isWs c = true)
    (hds : ds.length = 4) (hdsa : ∀ c ∈ ds, isDigitB c = true) :
    matchTail (w1 ++ (al ++ (w2 ++ (ds ++ rest)))) = some (w1 ++ (al ++ (w2 ++ ds))) := by
  obtain ⟨a0, al', rfl⟩ := List.exists_cons_of_ne_nil hal
  obtain ⟨b0, w2', rfl⟩ := List.exists_cons_of_ne_nil hw2
  rcases ds with _ | ⟨e1, _ | ⟨e2, _ | ⟨e3, _ | ⟨e4, dtl⟩⟩⟩⟩ <;> simp at hds
  subst hds
  have ha0 : ¬ (isWs a0 = true) := by
    rw [not_ws_of_alpha (hala a0 (List.mem_cons_self a0 al'))]
    exact Bool.false_ne_true
  have hb0 : ¬ (isAlphaB b0 = true) := by
    rw [not_alpha_of_ws (hw2a b0 (List.mem_cons_self b0 w2'))]
    exact Bool.false_ne_true
  have he1 : ¬ (isWs e1 = true) := by
    rw [not_ws_of_digit (hdsa e1 (by simp))]
    exact Bool.false_ne_true
  have hala' : ∀ c ∈ al', isAlphaB c = true := fun c hc => hala c (List.mem_cons_of_mem a0 hc)
  have hw2a' : ∀ c ∈ w2', isWs c = true := fun c hc => hw2a c (List.mem_cons_of_mem b0 hc)
  have s1 : (w1 ++ ((a0 :: al') ++ ((b0 :: w2') ++ ([e1, e2, e3, e4] ++ rest)))).takeWhile isWs
      = w1 := by
    rw [takeWhile_append_of_all hw1a, List.cons_append, List.takeWhile_cons_of_neg ha0,
      List.append_nil]
  have s2 : (w1 ++ ((a0 :: al') ++ ((b0 :: w2') ++ ([e1, e2, e3, e4] ++ rest)))).dropWhile isWs
      = (a0 :: al') ++ ((b0 :: w2') ++ ([e1, e2, e3, e4] ++ rest)) := by
    rw [dropWhile_append_of_all hw1a, List.cons_append, List.dropWhile_cons_of_neg ha0,
      List.cons_append]
  have s3 : ((a0 :: al') ++ ((b0 :: w2') ++ ([e1, e2, e3, e4] ++ rest))).takeWhile isAlphaB
      = a0 :: al' := by
    rw [List.cons_append, List.takeWhile_cons_of_pos (hala a0 (List.mem_cons_self a0 al')),
      takeWhile_append_of_all hala', List.cons_append, List.takeWhile_cons_of_neg hb0,
      List.append_nil]
  have s4 : ((a0 :: al') ++ ((b0 :: w2') ++ ([e1, e2, e3, e4] ++ rest))).dropWhile isAlphaB
      = (b0 :: w2') ++ ([e1, e2, e3, e4] ++ rest) := by
    rw [List.cons_append, List.dropWhile_cons_of_pos (hala a0 (List.mem_cons_self a0 al')),
      dropWhile_append_of_all hala', List.cons_append, List.dropWhile_cons_of_neg hb0,
      List.cons_append]
  have s5 : ((b0 :: w2') ++ ([e1, e2, e3, e4] ++ rest)).takeWhile isWs = b0 :: w2' := by
    rw [List.cons_append, List.takeWhile_cons_of_pos (hw2a b0 (List.mem_cons_self b0 w2')),
      takeWhile_append_of_all hw2a', List.cons_append, List.takeWhile_cons_of_neg he1,
      List.append_nil]
  have s6 : ((b0 :: w2') ++ ([e1, e2, e3, e4] ++ rest)).dropWhile isWs
      = [e1, e2, e3, e4] ++ rest := by
    rw [List.cons_append, List.dropWhile_cons_of_pos (hw2a b0 (List.mem_cons_self b0 w2')),
      dropWhile_append_of_all hw2a', List.cons_append, List.dropWhile_cons_of_neg he1,
      List.cons_append]
  have hg : (isDigitB e1 && isDigitB e2 && isDigitB e3 && isDigitB e4) = true := by
    simp [hdsa e1 (by simp), hdsa e2 (by simp), hdsa e3 (by simp), hdsa e4 (by simp)]
  rw [matchTail, s1, s2, s3, s4, s5, s6]
  rw [if_neg hw1, if_neg (by simp : ¬ ((a0 :: al' : Str) = [])),
    if_neg (by simp : ¬ ((b0 :: w2' : Str) = []))]
  simp only [List.cons_append, List.nil_append]
  rw [if_pos hg]

theorem matchCandAt_complete {m : Str} (hcs : candShape m) (post : Str) :
    matchCandAt (m ++ post) = some m := by
  obtain ⟨dds, t, rfl, hne, hle, hdig, hts⟩ := hcs
  obtain ⟨w1, al, w2, ds, rfl, hw1, hw1a, hal, hala, hw2, hw2a, hds, hdsa⟩ := hts
  obtain ⟨wc, w1', rfl⟩ := List.exists_cons_of_ne_nil hw1
  have hmt := matchTail_complete (wc :: w1') al w2 ds post (by simp) hw1a hal hala hw2 hw2a
    hds hdsa
  have hwcEq : isDigitB wc = false := not_digit_of_ws (hw1a wc (List.mem_cons_self wc w1'))
  rcases dds with _ | ⟨d1, _ | ⟨d2, _ | ⟨d3, dtl⟩⟩⟩
  · exact absurd rfl hne
  · have hd1 : isDigitB d1 = true := hdig d1 (by simp)
    simp only [List.cons_append, List.nil_append, List.append_assoc] at hmt ⊢
    simp [matchCandAt, hd1, hwcEq, hmt]
  · have hd1 : isDigitB d1 = true := hdig d1 (by simp)
    have hd2 : isDigitB d2 = true := hdig d2 (by simp)
    simp only [List.cons_append, List.nil_append, List.append_assoc] at hmt ⊢
    simp [matchCandAt, hd1, hd2, hmt]
  · simp at hle

theorem not_candMatchAt {s : Str} {j : Nat}
    (h : matchCandAt (s.drop j) = none) : ¬ candMatchAt s j := by
  rintro ⟨m, post, heq, hcs⟩
  rw [heq, matchCandAt_complete hcs post] at h
  cases h

theorem findCand_eq_at : ∀ (s : Str) (i : Nat) (m : Str),
    matchCandAt (s.drop i) = some m →
    (∀ j, j < i → matchCandAt (s.drop j) = none) →
    findCand s = some m := by
  intro s
  induction s with
  | nil =>
    intro i m h _
    rw [List.drop_nil] at h
    exact Option.noConfusion h
  | cons c cs ih =>
    intro i m h hnone
    cases i with
    | zero =>
      rw [List.drop_zero] at h
      rw [findCand, h]
    | succ k =>
      have h0 : matchCandAt (c :: cs) = none := by
        have h1 := hnone 0 (Nat.succ_pos k)
        rwa [List.drop_zero] at h1
      rw [findCand, h0]
      refine ih k m (by simpa using h) (fun j hj => ?_)
      have h2 := hnone (j + 1) (Nat.succ_lt_succ hj)
      simpa using h2

theorem findCand_eq_none : ∀ (s : Str),
    (∀ i, matchCandAt (s.drop i) = none) → findCand s = none := by
  intro s
  induction s with
  | nil => intro _; rfl
  | cons c cs ih =>
    intro h
    have h0 := h 0
    rw [List.drop_zero] at h0
    rw [findCand, h0]
    refine ih (fun i => ?_)
    have h1 := h (i + 1)
    simpa using h1

/-- Claim C7: `parse_report_period` returns 2025-12-31 and 2024-01-05 on the
claim's two banner examples and null on unrelated text; it returns null on
non-strings, on any text lacking both banner phrases, and on any text with no
date-like substring (stated both through the search function and extrinsically:
no offset of the text carries a `\d{1,2}\s+[A-Za-z]+\s+\d{4}`-shaped
decomposition); whenever it returns a date, the text contains the banner phrase,
some substring matches the pattern and parses (full-then-abbreviated English
month grammar, with `datetime` range validation) to exactly the returned
calendar date; and universally, whenever the banner phrase is present and a
candidate-shaped substring starts at offset `i` with no candidate at any earlier
offset, the result equals the full-then-abbreviated strptime parse of exactly
that leftmost matching substring. -/
theorem claim_C7_theorem :
    parse_report_period (Cell.str ("For the month ended 31 December 2025".toList)) =
      some ⟨2025, 12, 31⟩ ∧
    parse_report_period (Cell.str ("For the period ended 5 Jan 2024".toList)) =
      some ⟨2024, 1, 5⟩ ∧
    parse_report_period (Cell.str ("Some unrelated text".toList)) = none ∧
    (∀ cl : Cell, (∀ s, cl ≠ Cell.str s) → parse_report_period cl = none) ∧
    (∀ s : Str, isSubB ("for the month ended".toList) (lower s) = false →
        isSubB ("for the period ended".toList) (lower s) = false →
        parse_report_period (Cell.str s) = none) ∧
    (∀ s : Str, findCand s = none → parse_report_period (Cell.str s) = none) ∧
    (∀ (s : Str) (d : Date), parse_report_period (Cell.str s) = some d →
        (isSubB ("for the month ended".toList) (lower s)
          || isSubB ("for the period ended".toList) (lower s)) = true ∧
        ∃ mid pre post, s = pre ++ (mid ++ post) ∧ candShape mid ∧
          dmyValue mid = some d ∧
          1 ≤ d.day ∧ d.day ≤ daysInMonth d.year d.month ∧ 1 ≤ d.year ∧ d.year ≤ 9999 ∧
          ∃ name, (d.month, name) ∈ monthFulls ∨ (d.month, name) ∈ monthAbbrevs) ∧
    (∀ s : Str, (∀ i, ¬ candMatchAt s i) → parse_report_period (Cell.str s) = none) ∧
    (∀ (s : Str) (i : Nat) (m post : Str),
        (isSubB ("for the month ended".toList) (lower s)
          || isSubB ("for the period ended".toList) (lower s)) = true →
        s.drop i = m ++ post → candShape m →
        (∀ j, j < i → ¬ candMatchAt s j) →
        parse_report_period (Cell.str s) = dmyValue m) := by
  refine ⟨by decide, by decide, by decide, ?_, ?_, ?_, ?_, ?_, ?_⟩
  · intro cl hcl
    cases cl with
    | na => rfl
    | num q => rfl
    | str s => exact absurd rfl (hcl s)
  · intro s hp1 hp2
    have hcond : ¬ ((isSubB ("for the month ended".toList) (lower s)
        || isSubB ("for the period ended".toList) (lower s)) = true) := by
      intro hcontra
      rcases Bool.or_eq_true_iff.mp hcontra with hx | hx
      · rw [hp1] at hx
        exact Bool.noConfusion hx
      · rw [hp2] at hx
        exact Bool.noConfusion hx
    rw [parse_report_period, if_neg hcond]
  · intro s hfc
    rw [parse_report_period]
    split
    · rw [hfc]
    · rfl
  · intro s d h
    rw [parse_report_period] at h
    by_cases hph : (isSubB ("for the month ended".toList) (lower s)
        || isSubB ("for the period ended".toList) (lower s)) = true
    · rw [if_pos hph] at h
      refine ⟨hph, ?_⟩
      cases hfc : findCand s with
      | none => rw [hfc] at h; cases h
      | some mid =>
        rw [hfc] at h
        simp only at h
        obtain ⟨pre, post, hpe, hcs⟩ := findCand_sound s mid hfc
        refine ⟨mid, pre, post, hpe, hcs, h, ?_⟩
        rw [dmyValue.eq_def] at h
        cases hf : dmyParse1 monthFulls (trimL mid) with
        | some d2 =>
          rw [hf] at h
          injection h with h
          subst h
          obtain ⟨ha, hb, hc, hd, name, hm⟩ := dmyParse1_sound _ _ _ hf
          exact ⟨ha, hb, hc, hd, name, Or.inl hm⟩
        | none =>
          rw [hf] at h
          obtain ⟨ha, hb, hc, hd, name, hm⟩ := dmyParse1_sound _ _ _ h
          exact ⟨ha, hb, hc, hd, name, Or.inr hm⟩
    · rw [if_neg hph] at h
      cases h
  · intro s hno
    have hfc : findCand s = none := by
      apply findCand_eq_none
      intro i
      cases hmc : matchCandAt (s.drop i) with
      | none => rfl
      | some m =>
        obtain ⟨post, heq, hshape⟩ := matchCandAt_sound _ _ hmc
        exact absurd ⟨m, post, heq, hshape⟩ (hno i)
    rw [parse_report_period]
    split
    · rw [hfc]
    · rfl
  · intro s i m post hb hdrop hshape hleft
    have hat : matchCandAt (s.drop i) = some m := by
      rw [hdrop]
      exact matchCandAt_complete hshape post
    have hnone : ∀ j, j < i → matchCandAt (s.drop j) = none := by
      intro j hj
      cases hmc : matchCandAt (s.drop j) with
      | none => rfl
      | some m2 =>
        obtain ⟨post2, heq2, hcs2⟩ := matchCandAt_sound _ _ hmc
        exact absurd ⟨m2, post2, heq2, hcs2⟩ (hleft j hj)
    rw [parse_report_period, if_pos hb, findCand_eq_at s i m hat hnone]

/-- Claim C7, witness: the leftmost-match clause applied to the first banner
example — the date substring starts at offset 20, no earlier offset matches the
pattern, and the returned value is the strptime parse of that substring. -/
theorem claim_C7_witness :
    parse_report_period (Cell.str ("For the month ended 31 December 2025".toList)) =
      dmyValue ("31 December 2025".toList) ∧
    dmyValue ("31 December 2025".toList) = some ⟨2025, 12, 31⟩ :=
  ⟨claim_C7_theorem.2.2.2.2.2.2.2.2 ("For the month ended 31 December 2025".toList) 20
    ("31 December 2025".toList) []
    (by decide) (by decide)
    ⟨"31".toList, " December 2025".toList, by decide, by decide, by decide, by decide,
      " ".toList, "December".toList, " ".toList, "2025".toList, by decide, by decide,
      by decide, by decide, by decide, by decide, by decide, by decide, by decide⟩
    (by
      intro j hj
      apply not_candMatchAt
      interval_cases j <;> decide),
   by decide⟩

end XeroSpec
